import Mathlib

/-!
Verification of the LatinGrammarTranslator core against its specification.

The Python sources under `src/PythonTranslator` are shallowly embedded:

* `models.py`      → the data model (`NodeType`, `TextType`, `FormattingStyle`,
                     `TextSegment`, `ParsedNode`, `ParsedDocument`).
* `html_parser.py` → `parseHtml` and friends, over an abstract DOM (`HtmlNode`)
                     standing for the BeautifulSoup/lxml tree.  Tag names in the
                     DOM are taken as lxml produces them (lowercased); multi-valued
                     attributes such as `class` are stored as their raw
                     space-separated string and tokenised on access, mirroring
                     what BeautifulSoup's list representation plus `' '.join`
                     round-trips to.
* `translation_strategy.py` → `extractSectionData`, `applyTranslations`,
                     `translateWithRetry`, `translateDocument`.  The external
                     collaborator is a parameter `strategy : SectionData →
                     TranslationResult`; in-place mutation of `TextSegment.text`
                     becomes functional update; the number of collaborator
                     invocations is returned explicitly.
* `html_generator.py` → `buildAttributes`, `buildTextContent`, `segmentToHtml`.
* `word_generator.py` → `processNode`, producing an abstract list of emitted
                     rich-document blocks.

Python truthiness of optional strings (`if x:` is false for `None` and `""`)
is modelled by `optTruthy`.
-/

/-! ## Data model (`models.py`) -/

inductive NodeType where
  | heading1 | heading2 | heading3 | heading4
  | paragraph | listOrdered | listUnordered | listItem
  | table | tableRow | tableCell | tableHeader
  | blockquote | div | span | link | strong | emphasis
deriving DecidableEq, Repr

inductive TextType where
  | english | latin | gloss | reference | mixed
deriving DecidableEq, Repr

structure FormattingStyle where
  bold : Bool := false
  italic : Bool := false
  underline : Bool := false
  font_size : Option String := none
  font_family : Option String := none
  color : Option String := none
  padding_left : Option String := none
  text_align : Option String := none
deriving DecidableEq, Repr

structure TextSegment where
  text : String
  text_type : TextType
  formatting : FormattingStyle := {}
  html_class : Option String := none
deriving DecidableEq, Repr

/-- `ParsedNode` from `models.py`; `children` makes it a nested inductive, so it
is declared with an anonymous constructor and explicit projections below.
Field order follows the Python class. -/
inductive ParsedNode where
  | mk (node_type : NodeType) (node_id : Option String)
       (text_segments : List TextSegment)
       (attributes : List (String × String))
       (inline_style : Option String)
       (children : List ParsedNode)
       (section_number : Option String)
       (is_footnote : Bool)
       (footnote_id : Option String)
       (has_cross_reference : Bool)

def ParsedNode.node_type : ParsedNode → NodeType
  | .mk t _ _ _ _ _ _ _ _ _ => t

def ParsedNode.node_id : ParsedNode → Option String
  | .mk _ i _ _ _ _ _ _ _ _ => i

def ParsedNode.text_segments : ParsedNode → List TextSegment
  | .mk _ _ s _ _ _ _ _ _ _ => s

def ParsedNode.attributes : ParsedNode → List (String × String)
  | .mk _ _ _ a _ _ _ _ _ _ => a

def ParsedNode.inline_style : ParsedNode → Option String
  | .mk _ _ _ _ st _ _ _ _ _ => st

def ParsedNode.children : ParsedNode → List ParsedNode
  | .mk _ _ _ _ _ c _ _ _ _ => c

def ParsedNode.section_number : ParsedNode → Option String
  | .mk _ _ _ _ _ _ n _ _ _ => n

def ParsedNode.is_footnote : ParsedNode → Bool
  | .mk _ _ _ _ _ _ _ f _ _ => f

def ParsedNode.footnote_id : ParsedNode → Option String
  | .mk _ _ _ _ _ _ _ _ f _ => f

structure Stats where
  total_nodes : Nat := 0
  text_segments : Nat := 0
  latin_segments : Nat := 0
  english_segments : Nat := 0
  gloss_segments : Nat := 0
  tables : Nat := 0
  lists : Nat := 0
deriving DecidableEq, Repr

structure ParsedDocument where
  title : String
  encoding : String := "utf-8"
  nodes : List ParsedNode
  sections : List (String × ParsedNode) := []
  footnotes : List (String × ParsedNode) := []
  stats : Stats := {}
  original_filename : Option String := none
  css_file : Option String := none

/-- Python truthiness of an optional string: `None` and `""` are falsy. -/
def optTruthy : Option String → Bool
  | none => false
  | some s => s ≠ ""

/-! ## HTML escaping and string helpers -/

/-- `html.escape` with `quote=True` (used throughout `html_generator.py`):
`&`, `<`, `>`, `"`, `'` become entity references.  The sequential
`str.replace` passes of the CPython implementation are equivalent to this
single character-wise pass. -/
def htmlEscape (s : String) : String :=
  String.mk <| s.toList.flatMap fun c =>
    if c = '&' then "&amp;".toList
    else if c = '<' then "&lt;".toList
    else if c = '>' then "&gt;".toList
    else if c = '"' then "&quot;".toList
    else if c = Char.ofNat 39 then "&#x27;".toList
    else [c]

/-- `sep.join(parts)`. -/
def joinWith (sep : String) : List String → String
  | [] => ""
  | [x] => x
  | x :: rest => x ++ sep ++ joinWith sep rest

/-! ## HTML generator (`html_generator.py`) -/

/-- `HtmlGenerator._build_attributes`: `id` first (when truthy), then the
preserved attribute map in order, then `style` from `inline_style` unless the
map already holds a `style` key.  Values are escaped (`str(value)` is the
identity on the string-valued attributes the model carries). -/
def buildAttributes (node : ParsedNode) : List String :=
  (match node.node_id with
   | some i => if i ≠ "" then ["id=\"" ++ htmlEscape i ++ "\""] else []
   | none => []) ++
  (node.attributes.map fun kv => kv.1 ++ "=\"" ++ htmlEscape kv.2 ++ "\"") ++
  (match node.inline_style with
   | some st =>
       if st ≠ "" ∧ (node.attributes.all fun kv => kv.1 ≠ "style") then
         ["style=\"" ++ htmlEscape st ++ "\""]
       else []
   | none => [])

/-- `HtmlGenerator._build_inline_style`: residual CSS declarations for the
formatting fields that are not rendered as tags. -/
def buildInlineStyle (f : FormattingStyle) : List String :=
  (match f.font_size with
   | some v => if v ≠ "" then ["font-size: " ++ v] else []
   | none => []) ++
  (match f.font_family with
   | some v => if v ≠ "" then ["font-family: " ++ v] else []
   | none => []) ++
  (match f.color with
   | some v => if v ≠ "" then ["color: " ++ v] else []
   | none => []) ++
  (match f.padding_left with
   | some v => if v ≠ "" then ["padding-left: " ++ v] else []
   | none => []) ++
  (match f.text_align with
   | some v => if v ≠ "" then ["text-align: " ++ v] else []
   | none => [])

/-- `HtmlGenerator._segment_to_html`: escape, pick a wrapper class
(explicit class, else `foreign` for LATIN, else `gloss` for GLOSS), collect
residual inline style, nest `strong`/`em`/`u` for the boolean flags, and wrap
in a `span` when a class or style was collected. -/
def segmentToHtml (segment : TextSegment) : String :=
  let text0 := htmlEscape segment.text
  let classAttrs : List String :=
    match segment.html_class with
    | some c =>
        if c ≠ "" then ["class=\"" ++ c ++ "\""]
        else if segment.text_type = TextType.latin then ["class=\"foreign\""]
        else if segment.text_type = TextType.gloss then ["class=\"gloss\""]
        else []
    | none =>
        if segment.text_type = TextType.latin then ["class=\"foreign\""]
        else if segment.text_type = TextType.gloss then ["class=\"gloss\""]
        else []
  let styleParts := buildInlineStyle segment.formatting
  let styleAttrs : List String :=
    if styleParts ≠ [] then ["style=\"" ++ joinWith "; " styleParts ++ "\""] else []
  let wrapperAttrs := classAttrs ++ styleAttrs
  let text1 := if segment.formatting.bold then "<strong>" ++ text0 ++ "</strong>" else text0
  let text2 := if segment.formatting.italic then "<em>" ++ text1 ++ "</em>" else text1
  let text3 := if segment.formatting.underline then "<u>" ++ text2 ++ "</u>" else text2
  if wrapperAttrs ≠ [] then
    "<span " ++ joinWith " " wrapperAttrs ++ ">" ++ text3 ++ "</span>"
  else
    text3

/-- `segment.text.endswith((' ', '\n', '\t'))`: the final character is a space,
newline or tab. -/
def endsWithWsChar (s : String) : Bool :=
  match s.toList.getLast? with
  | some c => c = ' ' || c = '\n' || c = '\t'
  | none => false

/-- `next_segment.text.startswith((' ', '\n', '\t', '.', ',', ':', ';', '!', '?', ')', ']', '\x7d'))`. -/
def startsWithWsOrPunct (s : String) : Bool :=
  match s.toList with
  | c :: _ =>
      c = ' ' || c = '\n' || c = '\t' || c = '.' || c = ',' || c = ':' ||
      c = ';' || c = '!' || c = '?' || c = ')' || c = ']' || c = Char.ofNat 125
  | [] => false

/-- `HtmlGenerator._build_text_content`: concatenate rendered segments,
inserting a single space between segment `i` and `i+1` unless segment `i`
ends in a space character or segment `i+1` starts with a space or listed
punctuation character.  The indexed Python loop is rendered as recursion on
the list, one joining decision per adjacent pair. -/
def buildTextContent : List TextSegment → String
  | [] => ""
  | [segment] => segmentToHtml segment
  | segment :: next :: rest =>
      segmentToHtml segment ++
      (if !(endsWithWsChar segment.text) && !(startsWithWsOrPunct next.text) then " " else "") ++
      buildTextContent (next :: rest)

/-! ## Claim C7 -/

/-- The join condition exactly as the specification words it: a space is
inserted unless the first segment's text ends in whitespace or the second
begins with whitespace or one of `. , : ; ! ? ) ] \x7d`.  (Whitespace is the
space, newline and tab characters handled by the serializer.) -/
def specJoinInsertsSpace (first second : TextSegment) : Bool :=
  !(endsWithWsChar first.text) && !(startsWithWsOrPunct second.text)

def wordSeg : TextSegment := { text := "word", text_type := TextType.english }
def nextSeg : TextSegment := { text := "next", text_type := TextType.english }
def commaSeg : TextSegment := { text := ",", text_type := TextType.english }

/-- C7: the serializer inserts exactly one space between adjacent segments
unless the first ends in whitespace or the second begins with whitespace or a
listed punctuation character; in particular `"word"`+`"next"` serializes to
`"word next"` and `"word"`+`","` to `"word,"`. -/
theorem C7_join_spacing :
    (∀ (first second : TextSegment) (rest : List TextSegment),
      buildTextContent (first :: second :: rest) =
        segmentToHtml first ++
        (if specJoinInsertsSpace first second then " " else "") ++
        buildTextContent (second :: rest)) ∧
    buildTextContent [wordSeg, nextSeg] = "word next" ∧
    buildTextContent [wordSeg, commaSeg] = "word," := by
  refine ⟨fun first second rest => ?_, by decide, by decide⟩
  simp only [buildTextContent, specJoinInsertsSpace]

/-! ## Claim C8 -/

def nodeC8 : ParsedNode :=
  .mk NodeType.span (some "x") [] [("id", "x")] none [] none false none false

/-- C8 counterexample: the parser stores the `id` attribute both in `node_id`
and in the preserved attribute map (`html_parser.py` keeps every attribute in
`attributes` and additionally lifts `id` out), and `_build_attributes` emits
both copies.  For such a node the `id` attribute is emitted twice, refuting
"each attribute emitted exactly once". -/
theorem C8_counterexample :
    buildAttributes nodeC8 = ["id=\"x\"", "id=\"x\""] := by decide

/-- C8 (amended): for a node whose preserved attribute map contains neither an
`id` nor a `style` key, the serializer emits the `id` attribute first (when
truthy), then each preserved attribute exactly once in stored order, then the
inline style last (when truthy), with every value escaped. -/
theorem C8_attribute_order (node : ParsedNode)
    (h : ∀ kv ∈ node.attributes, kv.1 ≠ "id" ∧ kv.1 ≠ "style") :
    buildAttributes node =
      (match node.node_id with
       | some i => if i ≠ "" then ["id=\"" ++ htmlEscape i ++ "\""] else []
       | none => []) ++
      (node.attributes.map fun kv => kv.1 ++ "=\"" ++ htmlEscape kv.2 ++ "\"") ++
      (match node.inline_style with
       | some st => if st ≠ "" then ["style=\"" ++ htmlEscape st ++ "\""] else []
       | none => []) ∧
    (buildAttributes node).length =
      (match node.node_id with
       | some i => if i ≠ "" then 1 else 0
       | none => 0) +
      node.attributes.length +
      (match node.inline_style with
       | some st => if st ≠ "" then 1 else 0
       | none => 0) := by
  have hall : (node.attributes.all fun kv => kv.1 ≠ "style") = true := by
    rw [List.all_eq_true]
    intro kv hkv
    simpa using (h kv hkv).2
  have hmain : buildAttributes node =
      (match node.node_id with
       | some i => if i ≠ "" then ["id=\"" ++ htmlEscape i ++ "\""] else []
       | none => []) ++
      (node.attributes.map fun kv => kv.1 ++ "=\"" ++ htmlEscape kv.2 ++ "\"") ++
      (match node.inline_style with
       | some st => if st ≠ "" then ["style=\"" ++ htmlEscape st ++ "\""] else []
       | none => []) := by
    unfold buildAttributes
    rw [hall]
    rcases node.inline_style with _ | st <;> simp
  refine ⟨hmain, ?_⟩
  rw [hmain]
  rcases node.node_id with _ | i <;> rcases node.inline_style with _ | st <;>
    simp [apply_ite List.length] <;> omega

theorem C8_witness :
    (∀ kv ∈ ([("class", "note")] : List (String × String)), kv.1 ≠ "id" ∧ kv.1 ≠ "style") ∧
    buildAttributes (.mk NodeType.paragraph (some "p1") [] [("class", "note")]
        (some "color: red") [] none false none false) =
      ["id=\"p1\"", "class=\"note\"", "style=\"color: red\""] := by
  constructor
  · decide
  · have := (C8_attribute_order
      (.mk NodeType.paragraph (some "p1") [] [("class", "note")]
        (some "color: red") [] none false none false) (by decide)).1
    rw [this]
    decide

/-! ## Segment extraction and reinjection (`translation_strategy.py`) -/

/-- One entry of `SectionData.segments_to_translate`: the dict
`{"id": ..., "text": ..., "type": ..., "segment_ref": segment}` built by
`SectionTranslator._extract_section_data`.  `segment_ref` is the captured
handle; in the pure model it is the segment value at capture time. -/
structure SegUnit where
  id : String
  text : String
  type : String
  segment_ref : TextSegment
deriving DecidableEq, Repr

structure SectionData where
  title : String
  filename : String
  segments_to_translate : List SegUnit
  total_segments : Nat
  latin_count : Nat
  english_count : Nat
  gloss_count : Nat
deriving DecidableEq, Repr

structure TranslationResult where
  success : Bool
  translated_segments : List (String × String)
  error_message : Option String := none
  tokens_used : Option Nat := none
  provider : Option String := none
deriving DecidableEq, Repr

/-- The id string `f"seg_{segment_id}"`. -/
def segIdStr (n : Nat) : String := "seg_" ++ toString n

/-- Python `x or default` on an optional string (`""` also falls to the default). -/
def pyOrElse (o : Option String) (d : String) : String :=
  match o with
  | some s => if s ≠ "" then s else d
  | none => d

/-- The `nonlocal` counters of `_extract_section_data`, plus the accumulated
`segments_to_translate` list. -/
structure ExtState where
  segment_id : Nat
  latin_count : Nat
  english_count : Nat
  gloss_count : Nat
  segments_to_translate : List SegUnit
deriving DecidableEq, Repr

/-- The `for segment in node.text_segments` loop of `extract_recursive`:
LATIN segments only bump the counter, ENGLISH and GLOSS segments are appended
as units with sequential ids and the captured segment handle; REFERENCE (and
MIXED) segments match no branch. -/
def extractSegs : ExtState → List TextSegment → ExtState
  | st, [] => st
  | st, seg :: rest =>
      if seg.text_type = TextType.latin then
        extractSegs { st with latin_count := st.latin_count + 1 } rest
      else if seg.text_type = TextType.english then
        extractSegs { st with
          english_count := st.english_count + 1,
          segments_to_translate := st.segments_to_translate ++
            [{ id := segIdStr st.segment_id, text := seg.text, type := "english",
               segment_ref := seg }],
          segment_id := st.segment_id + 1 } rest
      else if seg.text_type = TextType.gloss then
        extractSegs { st with
          gloss_count := st.gloss_count + 1,
          segments_to_translate := st.segments_to_translate ++
            [{ id := segIdStr st.segment_id, text := seg.text, type := "gloss",
               segment_ref := seg }],
          segment_id := st.segment_id + 1 } rest
      else
        extractSegs st rest

mutual
/-- `extract_recursive`: the node's own segments, then its children in order. -/
def extractRecursive : ExtState → ParsedNode → ExtState
  | st, .mk _ _ segs _ _ children _ _ _ _ =>
      extractRecursiveList (extractSegs st segs) children

def extractRecursiveList : ExtState → List ParsedNode → ExtState
  | st, [] => st
  | st, n :: ns => extractRecursiveList (extractRecursive st n) ns
end

/-- `SectionTranslator._extract_section_data`. -/
def extractSectionData (doc : ParsedDocument) : SectionData :=
  let st := extractRecursiveList ⟨0, 0, 0, 0, []⟩ doc.nodes
  { title := doc.title,
    filename := pyOrElse doc.original_filename "unknown",
    segments_to_translate := st.segments_to_translate,
    total_segments := st.segment_id + st.latin_count,
    latin_count := st.latin_count,
    english_count := st.english_count,
    gloss_count := st.gloss_count }

/-- The id→text mapping (a Python dict with unique keys). -/
def Translations := List (String × String)

/-- Dict lookup: `translations[segment_id]` guarded by
`segment_id in translations`. -/
def tLookup (m : Translations) (k : String) : Option String :=
  (List.find? (fun kv => kv.1 = k) m).map (fun kv => kv.2)

/-- `seg.text_type in [TextType.ENGLISH, TextType.GLOSS]`. -/
def eligibleSeg (s : TextSegment) : Bool :=
  s.text_type = TextType.english || s.text_type = TextType.gloss

/-- The per-segment-list step of `_apply_translations`: eligible segments are
re-numbered with the running counter and overwritten when their recomputed id
is in the mapping. -/
def applySegs (m : Translations) : Nat → List TextSegment → List TextSegment × Nat
  | c, [] => ([], c)
  | c, seg :: rest =>
      if eligibleSeg seg then
        let seg' := match tLookup m (segIdStr c) with
          | some t => { seg with text := t }
          | none => seg
        let r := applySegs m (c + 1) rest
        (seg' :: r.1, r.2)
      else
        let r := applySegs m c rest
        (seg :: r.1, r.2)

mutual
/-- `_apply_translations`' second traversal, for one node: the top-level loop
handles a node's own segments and then calls `apply_recursive`, which per
child handles the child's segments and recurses — i.e. each node contributes
its own segments followed by its children's, with one document-wide counter. -/
def applyNode (m : Translations) : Nat → ParsedNode → ParsedNode × Nat
  | c, .mk nt ni segs attrs ist children sn fn fid hcr =>
      let r1 := applySegs m c segs
      let r2 := applyNodeList m r1.2 children
      (.mk nt ni r1.1 attrs ist r2.1 sn fn fid hcr, r2.2)

def applyNodeList (m : Translations) : Nat → List ParsedNode → List ParsedNode × Nat
  | c, [] => ([], c)
  | c, n :: ns =>
      let r1 := applyNode m c n
      let r2 := applyNodeList m r1.2 ns
      (r1.1 :: r2.1, r2.2)
end

/-- `SectionTranslator._apply_translations`: takes only the document and the
id→text mapping (not the units captured at extraction), and re-walks the tree
recomputing positional `seg_N` ids.  The in-place text mutation becomes a
functional update of `nodes`; in the source, `sections`/`footnotes` alias
nodes of the same tree. -/
def applyTranslations (doc : ParsedDocument) (translations : Translations) : ParsedDocument :=
  { doc with nodes := (applyNodeList translations 0 doc.nodes).1 }

/-- The running totals of `TranslationStrategy.stats`. -/
structure StratStats where
  sections_translated : Nat := 0
  segments_translated : Nat := 0
  total_tokens : Nat := 0
  errors : Nat := 0
deriving DecidableEq, Repr

/-- `SectionTranslator._translate_with_retry`: up to `maxRetries` attempts; a
successful attempt updates the stats and returns; exhaustion bumps `errors`
and returns the failure result.  An attempt raising an exception behaves like
a failed attempt, so the collaborator is modelled as returning a
`TranslationResult` either way.  The final `Nat` counts collaborator
invocations. -/
def retryLoop (strategy : SectionData → TranslationResult) (sec : SectionData)
    (stats : StratStats) : Nat → TranslationResult × StratStats × Nat
  | 0 =>
      ({ success := false, translated_segments := [],
         error_message := some "Todas as tentativas falharam" },
       { stats with errors := stats.errors + 1 }, 0)
  | n + 1 =>
      let result := strategy sec
      if result.success then
        (result,
         { stats with
            sections_translated := stats.sections_translated + 1,
            segments_translated := stats.segments_translated + result.translated_segments.length,
            total_tokens := stats.total_tokens +
              (match result.tokens_used with
               | some t => if t ≠ 0 then t else 0
               | none => 0) },
         1)
      else
        let r := retryLoop strategy sec stats n
        (r.1, r.2.1, r.2.2 + 1)

/-- `SectionTranslator.translate_document`: extract, translate with retry,
apply on success, and return the document (plus the strategy stats and the
number of collaborator invocations, which the source effects in place). -/
def translateDocument (strategy : SectionData → TranslationResult) (maxRetries : Nat)
    (stats : StratStats) (doc : ParsedDocument) : ParsedDocument × StratStats × Nat :=
  let sec := extractSectionData doc
  let r := retryLoop strategy sec stats maxRetries
  if r.1.success then
    (applyTranslations doc r.1.translated_segments, r.2.1, r.2.2)
  else
    (doc, r.2.1, r.2.2)

/-! ## Flat views of the tree, and the custom induction principle -/

/-- Nested induction principle for `ParsedNode` (children are a `List`). -/
theorem parsedNodeInduction {P : ParsedNode → Prop}
    (h : ∀ nt ni segs attrs ist children sn fn fid hcr,
      (∀ c ∈ children, P c) → P (.mk nt ni segs attrs ist children sn fn fid hcr)) :
    ∀ n, P n := by
  intro n
  induction n using ParsedNode.rec (motive_2 := fun l => ∀ c ∈ l, P c) with
  | mk nt ni segs attrs ist children sn fn fid hcr ih =>
      exact h nt ni segs attrs ist children sn fn fid hcr ih
  | nil => next c hc => exact absurd hc (List.not_mem_nil c)
  | cons hd tl ih1 ih2 =>
    next c hc =>
      cases hc with
      | head => exact ih1
      | tail _ hmem => exact ih2 c hmem

mutual
/-- All text segments of a subtree in the pre-order both traversals of
`translation_strategy.py` use: a node's own segments before its children's. -/
def flatSegs : ParsedNode → List TextSegment
  | .mk _ _ segs _ _ children _ _ _ _ => segs ++ flatSegsList children

def flatSegsList : List ParsedNode → List TextSegment
  | [] => []
  | n :: ns => flatSegs n ++ flatSegsList ns
end

def countElig (xs : List TextSegment) : Nat := xs.countP (fun s => eligibleSeg s)

def countOfType (t : TextType) (xs : List TextSegment) : Nat :=
  xs.countP (fun s => s.text_type = t)

/-- The unit sequence `_extract_section_data` produces for a flat segment
list, starting the id counter at `c`. -/
def extUnitsFlat : Nat → List TextSegment → List SegUnit
  | _, [] => []
  | c, s :: rest =>
      if s.text_type = TextType.latin then extUnitsFlat c rest
      else if s.text_type = TextType.english then
        ⟨segIdStr c, s.text, "english", s⟩ :: extUnitsFlat (c + 1) rest
      else if s.text_type = TextType.gloss then
        ⟨segIdStr c, s.text, "gloss", s⟩ :: extUnitsFlat (c + 1) rest
      else extUnitsFlat c rest

/-- The effect of one extraction pass over a flat segment list on the state. -/
def extShift (st : ExtState) (xs : List TextSegment) : ExtState :=
  { segment_id := st.segment_id + countElig xs,
    latin_count := st.latin_count + countOfType TextType.latin xs,
    english_count := st.english_count + countOfType TextType.english xs,
    gloss_count := st.gloss_count + countOfType TextType.gloss xs,
    segments_to_translate := st.segments_to_translate ++ extUnitsFlat st.segment_id xs }

theorem countElig_cons (s : TextSegment) (xs : List TextSegment) :
    countElig (s :: xs) = (if eligibleSeg s then 1 else 0) + countElig xs := by
  cases h : eligibleSeg s <;> simp [countElig, List.countP_cons, h, Nat.add_comm]

theorem countElig_append (xs ys : List TextSegment) :
    countElig (xs ++ ys) = countElig xs + countElig ys := by
  simp [countElig, List.countP_append]

theorem extractSegs_eq (xs : List TextSegment) : ∀ st, extractSegs st xs = extShift st xs := by
  induction xs with
  | nil => intro st; simp [extractSegs, extShift, extUnitsFlat, countElig, countOfType]
  | cons s rest ih =>
    intro st
    rcases hst : s.text_type <;>
      simp_all [extractSegs, extShift, extUnitsFlat, eligibleSeg, countElig_cons,
        countOfType, List.countP_cons, hst, Nat.add_assoc, Nat.add_comm, Nat.add_left_comm]

theorem extUnitsFlat_append (xs ys : List TextSegment) :
    ∀ c, extUnitsFlat c (xs ++ ys) = extUnitsFlat c xs ++ extUnitsFlat (c + countElig xs) ys := by
  induction xs with
  | nil => intro c; simp [extUnitsFlat, countElig]
  | cons s rest ih =>
    intro c
    rcases hst : s.text_type <;>
      simp_all [extUnitsFlat, eligibleSeg, countElig_cons, hst, Nat.add_assoc, Nat.add_comm,
        Nat.add_left_comm]

theorem extShift_extShift (st : ExtState) (xs ys : List TextSegment) :
    extShift (extShift st xs) ys = extShift st (xs ++ ys) := by
  simp [extShift, countElig_append, countOfType, List.countP_append, extUnitsFlat_append,
    Nat.add_assoc]

theorem extractRecursive_flat (n : ParsedNode) :
    ∀ st, extractRecursive st n = extShift st (flatSegs n) := by
  induction n using parsedNodeInduction with
  | _ nt ni segs attrs ist children sn fn fid hcr ih =>
    have hlist : ∀ (cs : List ParsedNode), (∀ c ∈ cs, ∀ st, extractRecursive st c = extShift st (flatSegs c)) →
        ∀ st, extractRecursiveList st cs = extShift st (flatSegsList cs) := by
      intro cs
      induction cs with
      | nil =>
        intro _ st
        simp [extractRecursiveList, flatSegsList, extShift, countElig, countOfType, extUnitsFlat]
      | cons c rest ihl =>
        intro hmem st
        rw [extractRecursiveList, hmem c (List.mem_cons_self c rest),
          ihl (fun d hd => hmem d (List.mem_cons_of_mem c hd)), extShift_extShift, flatSegsList]
    intro st
    rw [extractRecursive, extractSegs_eq, hlist children ih, extShift_extShift, flatSegs]

theorem extractRecursiveList_flat (ns : List ParsedNode) :
    ∀ st, extractRecursiveList st ns = extShift st (flatSegsList ns) := by
  induction ns with
  | nil =>
    intro st
    simp [extractRecursiveList, flatSegsList, extShift, countElig, countOfType, extUnitsFlat]
  | cons n rest ih =>
    intro st
    rw [extractRecursiveList, extractRecursive_flat, ih, extShift_extShift, flatSegsList]

/-- The units `_extract_section_data` captures are the pre-order eligible
segments, numbered from 0. -/
theorem extractSectionData_units (doc : ParsedDocument) :
    (extractSectionData doc).segments_to_translate = extUnitsFlat 0 (flatSegsList doc.nodes) := by
  simp [extractSectionData, extractRecursiveList_flat, extShift]

/-! ## Reinjection lemmas -/

theorem applySegs_counter (m : Translations) (xs : List TextSegment) :
    ∀ c, (applySegs m c xs).2 = c + countElig xs := by
  induction xs with
  | nil => intro c; simp [applySegs, countElig]
  | cons s rest ih =>
    intro c
    cases h : eligibleSeg s <;>
      simp [applySegs, h, ih, countElig_cons, Nat.add_assoc, Nat.add_comm, Nat.add_left_comm]

theorem applySegs_append (m : Translations) (xs ys : List TextSegment) :
    ∀ c, (applySegs m c (xs ++ ys)).1 =
      (applySegs m c xs).1 ++ (applySegs m (c + countElig xs) ys).1 := by
  induction xs with
  | nil => intro c; simp [applySegs, countElig]
  | cons s rest ih =>
    intro c
    cases h : eligibleSeg s <;>
      simp [applySegs, h, ih, countElig_cons, Nat.add_assoc, Nat.add_comm, Nat.add_left_comm]

/-- The specification's description of reinjection (§4.3/§8 partial-mapping
safety): walk the segments in order alongside the extracted units; an eligible
segment paired with a unit whose id is present in the mapping takes the mapped
text, every other segment — eligible with an absent id, or LATIN/REFERENCE —
retains its original text, and nothing but the text changes. -/
def claimUpdate (m : Translations) : List SegUnit → List TextSegment → List TextSegment
  | _, [] => []
  | us, s :: rest =>
      if eligibleSeg s then
        match us with
        | u :: us' =>
            (match tLookup m u.id with
             | some t => { s with text := t }
             | none => s) :: claimUpdate m us' rest
        | [] => s :: claimUpdate m [] rest
      else
        s :: claimUpdate m us rest

/-- The positional second traversal of `_apply_translations` agrees with the
handle-pairing description: position `c + k` is exactly the id stored in the
`k`-th captured unit. -/
theorem applySegs_claimUpdate (m : Translations) (xs : List TextSegment) :
    ∀ c, (applySegs m c xs).1 = claimUpdate m (extUnitsFlat c xs) xs := by
  induction xs with
  | nil => intro c; simp [applySegs, claimUpdate]
  | cons s rest ih =>
    intro c
    rcases hst : s.text_type <;>
      simp_all [applySegs, claimUpdate, extUnitsFlat, eligibleSeg, hst]

mutual
/-- Erase every segment's `text`, keeping all other data: two trees with equal
erasures differ at most in segment texts. -/
def eraseNode : ParsedNode → ParsedNode
  | .mk nt ni segs attrs ist children sn fn fid hcr =>
      .mk nt ni (segs.map fun s => { s with text := "" }) attrs ist
        (eraseNodeList children) sn fn fid hcr

def eraseNodeList : List ParsedNode → List ParsedNode
  | [] => []
  | n :: ns => eraseNode n :: eraseNodeList ns
end

theorem applySegs_erase (m : Translations) (xs : List TextSegment) :
    ∀ c, (applySegs m c xs).1.map (fun s => { s with text := "" }) =
      xs.map (fun s => { s with text := "" }) := by
  induction xs with
  | nil => intro c; simp [applySegs]
  | cons s rest ih =>
    intro c
    cases h : eligibleSeg s <;> cases hl : tLookup m (segIdStr c) <;>
      simp [applySegs, h, hl, ih]

theorem applyNode_flat (n : ParsedNode) :
    ∀ c (m : Translations),
      flatSegs (applyNode m c n).1 = (applySegs m c (flatSegs n)).1 ∧
      (applyNode m c n).2 = c + countElig (flatSegs n) ∧
      eraseNode (applyNode m c n).1 = eraseNode n := by
  induction n using parsedNodeInduction with
  | _ nt ni segs attrs ist children sn fn fid hcr ih =>
    have hlist : ∀ (cs : List ParsedNode),
        (∀ ch ∈ cs, ∀ c (m : Translations),
          flatSegs (applyNode m c ch).1 = (applySegs m c (flatSegs ch)).1 ∧
          (applyNode m c ch).2 = c + countElig (flatSegs ch) ∧
          eraseNode (applyNode m c ch).1 = eraseNode ch) →
        ∀ c (m : Translations),
          flatSegsList (applyNodeList m c cs).1 = (applySegs m c (flatSegsList cs)).1 ∧
          (applyNodeList m c cs).2 = c + countElig (flatSegsList cs) ∧
          eraseNodeList (applyNodeList m c cs).1 = eraseNodeList cs := by
      intro cs
      induction cs with
      | nil => intro _ c m; simp [applyNodeList, flatSegsList, applySegs, countElig, eraseNodeList]
      | cons ch rest ihl =>
        intro hmem c m
        obtain ⟨h1, h2, h3⟩ := hmem ch (List.mem_cons_self ch rest) c m
        obtain ⟨g1, g2, g3⟩ := ihl (fun d hd => hmem d (List.mem_cons_of_mem ch hd))
          (c + countElig (flatSegs ch)) m
        refine ⟨?_, ?_, ?_⟩
        · rw [applyNodeList, flatSegsList, flatSegsList, applySegs_append]
          simp only [h2, g1, h1]
        · rw [applyNodeList]
          simp only [h2, g2, flatSegsList, countElig_append, Nat.add_assoc]
        · rw [applyNodeList, eraseNodeList, eraseNodeList]
          simp only [h2, h3, g3]
    intro c m
    obtain ⟨g1, g2, g3⟩ := hlist children ih (c + countElig segs) m
    refine ⟨?_, ?_, ?_⟩
    · rw [applyNode, flatSegs, flatSegs, applySegs_append]
      simp only [applySegs_counter, g1, List.cons_append]
    · rw [applyNode]
      simp only [applySegs_counter, g2, flatSegs, countElig_append, Nat.add_assoc]
    · rw [applyNode, eraseNode, eraseNode]
      simp only [applySegs_counter, g3, applySegs_erase]

theorem applyNodeList_flat (ns : List ParsedNode) (m : Translations) :
    ∀ c, flatSegsList (applyNodeList m c ns).1 = (applySegs m c (flatSegsList ns)).1 ∧
      eraseNodeList (applyNodeList m c ns).1 = eraseNodeList ns := by
  induction ns with
  | nil => intro c; simp [applyNodeList, flatSegsList, applySegs, eraseNodeList]
  | cons n rest ih =>
    intro c
    obtain ⟨h1, h2, h3⟩ := applyNode_flat n c m
    obtain ⟨g1, g2⟩ := ih (c + countElig (flatSegs n))
    constructor
    · rw [applyNodeList, flatSegsList, flatSegsList, applySegs_append]
      simp only [h2, g1, h1]
    · rw [applyNodeList, eraseNodeList, eraseNodeList]
      simp only [h2, h3, g2]

theorem claimUpdate_nil_units (m : Translations) (xs : List TextSegment) :
    claimUpdate m [] xs = xs := by
  induction xs with
  | nil => rfl
  | cons s rest ih => cases h : eligibleSeg s <;> simp [claimUpdate, h, ih]

theorem extUnitsFlat_length (xs : List TextSegment) :
    ∀ c, (extUnitsFlat c xs).length = countElig xs := by
  induction xs with
  | nil => intro c; simp [extUnitsFlat, countElig]
  | cons s rest ih =>
    intro c
    rcases hst : s.text_type <;>
      simp_all [extUnitsFlat, eligibleSeg, countElig_cons, hst] <;> omega

theorem applySegs_no_elig (m : Translations) (xs : List TextSegment) (h : countElig xs = 0) :
    ∀ c, applySegs m c xs = (xs, c) := by
  induction xs with
  | nil => intro c; simp [applySegs]
  | cons s rest ih =>
    intro c
    rw [countElig_cons] at h
    cases he : eligibleSeg s
    · simp only [he, if_neg Bool.false_ne_true, Nat.zero_add] at h
      simp [applySegs, he, ih h]
    · simp [he] at h

theorem applyNode_no_elig (n : ParsedNode) :
    ∀ c (m : Translations), countElig (flatSegs n) = 0 → applyNode m c n = (n, c) := by
  induction n using parsedNodeInduction with
  | _ nt ni segs attrs ist children sn fn fid hcr ih =>
    have hlist : ∀ (cs : List ParsedNode),
        (∀ ch ∈ cs, ∀ c (m : Translations), countElig (flatSegs ch) = 0 → applyNode m c ch = (ch, c)) →
        ∀ c (m : Translations), countElig (flatSegsList cs) = 0 → applyNodeList m c cs = (cs, c) := by
      intro cs
      induction cs with
      | nil => intro _ c m _; rfl
      | cons ch rest ihl =>
        intro hmem c m h0
        rw [flatSegsList, countElig_append] at h0
        rw [applyNodeList, hmem ch (List.mem_cons_self ch rest) c m (by omega),
          ihl (fun d hd => hmem d (List.mem_cons_of_mem ch hd)) c m (by omega)]
    intro c m h0
    rw [flatSegs, countElig_append] at h0
    rw [applyNode, applySegs_no_elig m segs (by omega),
      hlist children ih c m (by omega)]

theorem applyNodeList_no_elig (ns : List ParsedNode) (m : Translations)
    (h : countElig (flatSegsList ns) = 0) : ∀ c, applyNodeList m c ns = (ns, c) := by
  induction ns with
  | nil => intro c; rfl
  | cons n rest ih =>
    rw [flatSegsList, countElig_append] at h
    intro c
    rw [applyNodeList, applyNode_no_elig n c m (by omega)]
    rw [ih (by omega) c]

theorem retryLoop_calls_pos (strategy : SectionData → TranslationResult) (sec : SectionData)
    (stats : StratStats) (n : Nat) (h : 1 ≤ n) : 1 ≤ (retryLoop strategy sec stats n).2.2 := by
  cases n with
  | zero => omega
  | succ k =>
    rw [retryLoop]
    cases (strategy sec).success <;> simp

/-! ## Claims C1, C3, C5, C6 -/

def segEng : TextSegment := { text := "Hello", text_type := TextType.english }
def segLat : TextSegment := { text := "stella", text_type := TextType.latin }

def docC1 : ParsedDocument :=
  { title := "T",
    nodes := [.mk NodeType.paragraph none [segEng] [] none [] none false none false] }

/-- C1: the claim (and §4.3 of the spec) requires reinjection to write through
the `segment_ref` handles captured at extraction, with no second positional
traversal.  `_extract_section_data` does capture the handle, but
`_apply_translations` receives only the document and the id→text mapping — the
captured units are not even passed to it — and re-walks the tree recomputing
positional `seg_N` ids (`applyNode`/`applyNodeList` above).  Evaluated at the
failing input: extraction stores the unit `seg_0 ↦ segEng`, and reinjection
of `{"seg_0": "Olá"}` updates the segment by recomputed position. -/
theorem C1_positional_reinjection :
    (extractSectionData docC1).segments_to_translate =
      [{ id := "seg_0", text := "Hello", type := "english", segment_ref := segEng }] ∧
    flatSegsList (applyTranslations docC1 [("seg_0", "Olá")]).nodes =
      [{ segEng with text := "Olá" }] := by decide

def docC3 : ParsedDocument :=
  { title := "T",
    nodes := [.mk NodeType.paragraph none [segLat] [] none [] none false none false] }

def okStrategy : SectionData → TranslationResult :=
  fun _ => { success := true, translated_segments := [] }

/-- C3 counterexample: a document whose only segment is LATIN has an empty
eligible sequence, yet `translate_document` still invokes the collaborator
(once here, since the first attempt succeeds) — there is no empty-sequence
short-circuit in the code, refuting "makes no call". -/
theorem C3_counterexample :
    (extractSectionData docC3).segments_to_translate = [] ∧
    (translateDocument okStrategy 3 {} docC3).2.2 = 1 := by decide

/-- C3 (amended): when the extracted eligible sequence is empty the
orchestrator returns the document unchanged, but it still calls the external
collaborator (at least once whenever the retry budget is positive). -/
theorem C3_empty_sequence (strategy : SectionData → TranslationResult)
    (maxRetries : Nat) (stats : StratStats) (doc : ParsedDocument)
    (h : (extractSectionData doc).segments_to_translate = []) :
    (translateDocument strategy maxRetries stats doc).1 = doc ∧
    (1 ≤ maxRetries → 1 ≤ (translateDocument strategy maxRetries stats doc).2.2) := by
  have hcount : countElig (flatSegsList doc.nodes) = 0 := by
    have := extUnitsFlat_length (flatSegsList doc.nodes) 0
    rw [← extractSectionData_units doc, h] at this
    simpa using this.symm
  constructor
  · rw [translateDocument]
    cases hs : (retryLoop strategy (extractSectionData doc) stats maxRetries).1.success <;>
      simp only [hs, if_true, if_false, Bool.false_eq_true, applyTranslations,
        applyNodeList_no_elig _ _ hcount]
  · intro hr
    rw [translateDocument]
    cases hs : (retryLoop strategy (extractSectionData doc) stats maxRetries).1.success <;>
      simpa [hs] using retryLoop_calls_pos strategy (extractSectionData doc) stats maxRetries hr

theorem C3_witness :
    (extractSectionData docC3).segments_to_translate = [] ∧
    ((translateDocument okStrategy 3 {} docC3).1 = docC3 ∧
      (1 ≤ 3 → 1 ≤ (translateDocument okStrategy 3 {} docC3).2.2)) :=
  ⟨by decide, C3_empty_sequence okStrategy 3 {} docC3 (by decide)⟩

/-- C5: reinjection with an arbitrary (possibly partial) id→text mapping
changes exactly the text of the eligible segments whose extraction id is in
the mapping (`claimUpdate` pairs the extracted units with the pre-order
segment sequence); all other segments keep their text, and erasing texts
shows every node field, attribute, formatting field and the tree structure
unchanged, as are all other document fields. -/
theorem C5_partial_mapping (doc : ParsedDocument) (m : Translations) :
    flatSegsList (applyTranslations doc m).nodes =
      claimUpdate m (extractSectionData doc).segments_to_translate (flatSegsList doc.nodes) ∧
    eraseNodeList (applyTranslations doc m).nodes = eraseNodeList doc.nodes ∧
    (applyTranslations doc m).title = doc.title ∧
    (applyTranslations doc m).encoding = doc.encoding ∧
    (applyTranslations doc m).sections = doc.sections ∧
    (applyTranslations doc m).footnotes = doc.footnotes ∧
    (applyTranslations doc m).stats = doc.stats ∧
    (applyTranslations doc m).original_filename = doc.original_filename ∧
    (applyTranslations doc m).css_file = doc.css_file := by
  obtain ⟨h1, h2⟩ := applyNodeList_flat doc.nodes m 0
  refine ⟨?_, h2, rfl, rfl, rfl, rfl, rfl, rfl, rfl⟩
  rw [applyTranslations]
  rw [extractSectionData_units doc]
  simpa [applySegs_claimUpdate] using h1

theorem extUnitsFlat_mem (xs : List TextSegment) :
    ∀ c u, u ∈ extUnitsFlat c xs →
      (u.type = "english" ∧ u.segment_ref.text_type = TextType.english) ∨
      (u.type = "gloss" ∧ u.segment_ref.text_type = TextType.gloss) := by
  induction xs with
  | nil => intro c u hu; simp [extUnitsFlat] at hu
  | cons s rest ih =>
    intro c u hu
    rcases hst : s.text_type <;> rw [extUnitsFlat] at hu <;> simp only [hst] at hu
    case english =>
      simp only [if_neg, reduceIte] at hu
      rcases List.mem_cons.mp hu with h | h
      · left; subst h; exact ⟨rfl, hst⟩
      · exact ih (c + 1) u h
    case gloss =>
      simp only [if_neg, reduceIte] at hu
      rcases List.mem_cons.mp hu with h | h
      · right; subst h; exact ⟨rfl, hst⟩
      · exact ih (c + 1) u h
    case latin => simpa using ih c u (by simpa using hu)
    case reference => simpa using ih c u (by simpa using hu)
    case mixed => simpa using ih c u (by simpa using hu)

/-- C6: no LATIN or REFERENCE segment ever appears in the extracted
translate-eligible sequence; every captured unit is an ENGLISH or GLOSS
segment with the matching type tag. -/
theorem C6_type_exclusion (doc : ParsedDocument) :
    ∀ u ∈ (extractSectionData doc).segments_to_translate,
      u.segment_ref.text_type ≠ TextType.latin ∧
      u.segment_ref.text_type ≠ TextType.reference := by
  intro u hu
  rw [extractSectionData_units doc] at hu
  rcases extUnitsFlat_mem (flatSegsList doc.nodes) 0 u hu with ⟨_, h⟩ | ⟨_, h⟩ <;>
    rw [h] <;> exact ⟨by decide, by decide⟩

def u0C6 : SegUnit := { id := "seg_0", text := "Hello", type := "english", segment_ref := segEng }

theorem C6_witness :
    u0C6 ∈ (extractSectionData docC1).segments_to_translate ∧
    (u0C6.segment_ref.text_type ≠ TextType.latin ∧
      u0C6.segment_ref.text_type ≠ TextType.reference) :=
  ⟨by decide, C6_type_exclusion docC1 u0C6 (by decide)⟩

/-! ## Rich-document serializer (`word_generator.py`) -/

/-- Python whitespace for `str.strip()`. -/
def pyWs (c : Char) : Bool :=
  c = ' ' || c = '\t' || c = '\n' || c = '\r' || c = Char.ofNat 11 || c = Char.ofNat 12

/-- Python `str.strip()`. -/
def pyStrip (s : String) : String :=
  String.mk (((s.toList.dropWhile pyWs).reverse.dropWhile pyWs).reverse)

mutual
/-- `SimpleWordGenerator._get_node_text`: the node's segment texts, then each
child's recursively flattened text when non-empty, joined by single spaces and
stripped. -/
def getNodeText : ParsedNode → String
  | .mk _ _ segs _ _ children _ _ _ _ =>
      pyStrip (joinWith " " (segs.map (fun s => s.text) ++ getNodeTextList children))

def getNodeTextList : List ParsedNode → List String
  | [] => []
  | n :: ns =>
      (if getNodeText n ≠ "" then [getNodeText n] else []) ++ getNodeTextList ns
end

/-- One run of a rich-document paragraph, with its effective bold/italic
flags. -/
structure WordRun where
  text : String
  bold : Bool := false
  italic : Bool := false
deriving DecidableEq, Repr

/-- Abstract rich-document output: one constructor per `doc.add_*` shape the
generator emits (heading with style level, paragraph of runs, styled list
item, table grid of (text, boldHeader) cells, indented italic quote). -/
inductive WordBlock where
  | heading (text : String) (level : Nat)
  | paragraph (runs : List WordRun)
  | listItem (style : String) (text : String)
  | table (cells : List (List (String × Bool)))
  | blockquote (text : String)
deriving DecidableEq, Repr

/-- `SimpleWordGenerator._add_heading`: emits only when the flattened text is
non-empty. -/
def addHeading (node : ParsedNode) (level : Nat) : List WordBlock :=
  if getNodeText node ≠ "" then [.heading (getNodeText node) level] else []

/-- `SimpleWordGenerator._add_paragraph`: skip an empty node; else a bold
section-number run, one run per segment (LATIN forced italic), then runs for
STRONG/EMPHASIS children. -/
def addParagraph (node : ParsedNode) : List WordBlock :=
  if node.text_segments.isEmpty && node.children.isEmpty then []
  else
    [.paragraph
      ((match node.section_number with
        | some sn => if sn ≠ "" then [{ text := sn ++ ". ", bold := true : WordRun }] else []
        | none => []) ++
       (node.text_segments.map fun seg =>
         { text := seg.text, bold := seg.formatting.bold,
           italic := seg.formatting.italic || seg.text_type = TextType.latin : WordRun }) ++
       (node.children.flatMap fun child =>
         if child.node_type = NodeType.strong ∨ child.node_type = NodeType.emphasis then
           child.text_segments.map fun seg =>
             { text := seg.text,
               bold := child.node_type = NodeType.strong || seg.formatting.bold,
               italic := child.node_type = NodeType.emphasis || seg.formatting.italic : WordRun }
         else []))]

/-- `SimpleWordGenerator._add_list`: one styled item per LIST_ITEM child with
non-empty flattened text. -/
def addList (node : ParsedNode) (ordered : Bool) : List WordBlock :=
  let style := if ordered then "List Number" else "List Bullet"
  node.children.flatMap fun child =>
    if child.node_type = NodeType.listItem then
      if getNodeText child ≠ "" then [.listItem style (getNodeText child)] else []
    else []

/-- `SimpleWordGenerator._add_table`: requires at least one row; the column
count comes from the first row; cell `j < cols` of each row carries the
cell's flattened text and whether it is a header (rendered bold); missing
cells stay at the docx defaults. -/
def addTable (node : ParsedNode) : List WordBlock :=
  let rows := node.children.filter fun c => c.node_type = NodeType.tableRow
  match rows with
  | [] => []
  | firstRow :: _ =>
      let cols := (firstRow.children.filter fun c =>
        c.node_type = NodeType.tableCell ∨ c.node_type = NodeType.tableHeader).length
      if cols = 0 then []
      else
        [.table (rows.map fun row =>
          let cells := row.children.filter fun c =>
            c.node_type = NodeType.tableCell ∨ c.node_type = NodeType.tableHeader
          (List.range cols).map fun j =>
            match cells[j]? with
            | some cell => (getNodeText cell, cell.node_type = NodeType.tableHeader)
            | none => ("", false))]

/-- `SimpleWordGenerator._add_blockquote`. -/
def addBlockquote (node : ParsedNode) : List WordBlock :=
  if getNodeText node ≠ "" then [.blockquote (getNodeText node)] else []

mutual
/-- `SimpleWordGenerator._process_node`: dispatch on the node type (note:
`HEADING_1` has no branch), then always recurse into the children.  The
`level` parameter is threaded exactly as in the source and never affects the
output. -/
def processNode : ParsedNode → Nat → List WordBlock
  | n@(.mk nt _ _ _ _ children _ _ _ _), level =>
      (match nt with
       | NodeType.heading2 => addHeading n 1
       | NodeType.heading3 => addHeading n 2
       | NodeType.heading4 => addHeading n 3
       | NodeType.paragraph => addParagraph n
       | NodeType.listOrdered => addList n true
       | NodeType.listUnordered => addList n false
       | NodeType.table => addTable n
       | NodeType.blockquote => addBlockquote n
       | _ => []) ++
      processNodeList children (level + 1)

def processNodeList : List ParsedNode → Nat → List WordBlock
  | [], _ => []
  | n :: ns, level => processNode n level ++ processNodeList ns level
end

/-! ## Claim C9 -/

def h1nodeC9 : ParsedNode :=
  .mk NodeType.heading1 none [{ text := "Introduction", text_type := TextType.english }]
    [] none [] none false none false

/-- C9 counterexample: a level-1 heading node with non-empty text is not
rendered at all — `_process_node` has no `HEADING_1` branch — refuting "every
heading node of levels 1 through 4 is rendered as a heading". -/
theorem C9_counterexample :
    getNodeText h1nodeC9 = "Introduction" ∧ processNode h1nodeC9 0 = [] := by decide

/-- C9 (amended): heading nodes of levels 2–4 with non-empty flattened text
are rendered as headings of rich-document style levels 1–3 respectively (one
less than the markup level); level-1 heading nodes emit no heading of their
own, only their children's output. -/
theorem C9_heading_levels (node : ParsedNode) (lvl : Nat) :
    (node.node_type = NodeType.heading2 → getNodeText node ≠ "" →
      processNode node lvl =
        WordBlock.heading (getNodeText node) 1 :: processNodeList node.children (lvl + 1)) ∧
    (node.node_type = NodeType.heading3 → getNodeText node ≠ "" →
      processNode node lvl =
        WordBlock.heading (getNodeText node) 2 :: processNodeList node.children (lvl + 1)) ∧
    (node.node_type = NodeType.heading4 → getNodeText node ≠ "" →
      processNode node lvl =
        WordBlock.heading (getNodeText node) 3 :: processNodeList node.children (lvl + 1)) ∧
    (node.node_type = NodeType.heading1 →
      processNode node lvl = processNodeList node.children (lvl + 1)) := by
  rcases node with ⟨nt, ni, segs, attrs, ist, children, sn, fn, fid, hcr⟩
  refine ⟨fun h1 h2 => ?_, fun h1 h2 => ?_, fun h1 h2 => ?_, fun h1 => ?_⟩ <;>
    simp only [ParsedNode.node_type] at h1 <;> subst h1 <;>
    simp_all [processNode, addHeading, ParsedNode.children]

def h2nodeC9 : ParsedNode :=
  .mk NodeType.heading2 none [{ text := "Nouns", text_type := TextType.english }]
    [] none [] none false none false

theorem C9_witness :
    h2nodeC9.node_type = NodeType.heading2 ∧ getNodeText h2nodeC9 ≠ "" ∧
    processNode h2nodeC9 0 =
      WordBlock.heading (getNodeText h2nodeC9) 1 ::
        processNodeList h2nodeC9.children (0 + 1) :=
  ⟨by decide, by decide, (C9_heading_levels h2nodeC9 0).1 (by decide) (by decide)⟩

/-! ## Abstract DOM (the BeautifulSoup/lxml tree `html_parser.py` works on)

An `HtmlNode` is a `Tag` (name, attributes, children) or a `NavigableString`.
Attribute values are the raw strings of the markup; BeautifulSoup's
list-valued attributes (`class`) are recovered by whitespace-tokenising the
stored string on access, so `_parse_element`'s `' '.join(value)` conversion
is the identity here.  Tag names are stored as lxml yields them
(lowercased); the source's explicit `.lower()` calls are kept. -/

inductive HtmlNode where
  | element (name : String) (attrs : List (String × String)) (children : List HtmlNode)
  | text (s : String)

/-- Nested induction principle for `HtmlNode`. -/
theorem htmlNodeInduction {P : HtmlNode → Prop}
    (ht : ∀ s, P (.text s))
    (he : ∀ nm attrs children, (∀ c ∈ children, P c) → P (.element nm attrs children)) :
    ∀ n, P n := by
  intro n
  induction n using HtmlNode.rec (motive_2 := fun l => ∀ c ∈ l, P c) with
  | element nm attrs children ih => exact he nm attrs children ih
  | text s => exact ht s
  | nil => next c hc => exact absurd hc (List.not_mem_nil c)
  | cons hd tl ih1 ih2 =>
    next c hc =>
      cases hc with
      | head => exact ih1
      | tail _ hmem => exact ih2 c hmem

/-- ASCII lowercasing (`str.lower()`; the tag and attribute data this parser
lowercases is ASCII). -/
def lowerChar (c : Char) : Char :=
  if 'A' ≤ c ∧ c ≤ 'Z' then Char.ofNat (c.toNat + 32) else c

def pyLower (s : String) : String := String.mk (s.toList.map lowerChar)

/-- `element.attrs.get(key)` / `element.get(key)`. -/
def domGetAttr (attrs : List (String × String)) (k : String) : Option String :=
  (List.find? (fun kv => kv.1 = k) attrs).map (fun kv => kv.2)

/-- Whitespace-tokenise (Python `str.split()` with no argument; also how
BeautifulSoup tokenises a multi-valued attribute). -/
def splitWsChars : List Char → List Char → List String
  | [], acc => if acc.isEmpty then [] else [String.mk acc.reverse]
  | c :: rest, acc =>
      if pyWs c then
        if acc.isEmpty then splitWsChars rest []
        else String.mk acc.reverse :: splitWsChars rest []
      else splitWsChars rest (c :: acc)

def pySplitWs (s : String) : List String := splitWsChars s.toList []

/-- `element.get('class', [])` as the token list BeautifulSoup stores. -/
def getClasses (attrs : List (String × String)) : List String :=
  match domGetAttr attrs "class" with
  | some v => pySplitWs v
  | none => []

mutual
/-- BeautifulSoup `get_text()`: concatenation of all descendant strings. -/
def domGetText : HtmlNode → String
  | .text s => s
  | .element _ _ children => domGetTextList children

def domGetTextList : List HtmlNode → String
  | [] => ""
  | n :: ns => domGetText n ++ domGetTextList ns
end

mutual
/-- BeautifulSoup `find`: first matching element in pre-order, among a node
and its descendants. -/
def findInNode (p : HtmlNode → Bool) : HtmlNode → Option HtmlNode
  | .text _ => none
  | .element nm attrs children =>
      if p (.element nm attrs children) then some (.element nm attrs children)
      else findInList p children

def findInList (p : HtmlNode → Bool) : List HtmlNode → Option HtmlNode
  | [] => none
  | n :: ns =>
      match findInNode p n with
      | some r => some r
      | none => findInList p ns
end

def isNamed (nm : String) (n : HtmlNode) : Bool :=
  match n with
  | .element name _ _ => name = nm
  | .text _ => false

/-- `\w` (ASCII). -/
def isWordChar (c : Char) : Bool := c.isAlphanum || c = '_'

/-- Substring containment (Python `pat in hay`). -/
def strContains (hay pat : String) : Bool :=
  (List.range (hay.toList.length + 1)).any fun i =>
    pat.toList.isPrefixOf (hay.toList.drop i)

/-- `re.search(r'padding-left:\s*(\d+px)', style)` at one position: the
literal, then whitespace, then one-or-more digits that must be followed by
`px`; the capture group includes the `px`. -/
def matchPaddingAt (cs : List Char) : Option String :=
  if "padding-left:".toList.isPrefixOf cs then
    let rest := (cs.drop 13).dropWhile pyWs
    let digits := rest.takeWhile Char.isDigit
    if !digits.isEmpty && "px".toList.isPrefixOf (rest.drop digits.length) then
      some (String.mk digits ++ "px")
    else none
  else none

/-- `re.search(r'text-align:\s*(\w+)', style)` at one position. -/
def matchAlignAt (cs : List Char) : Option String :=
  if "text-align:".toList.isPrefixOf cs then
    let w := ((cs.drop 11).dropWhile pyWs).takeWhile isWordChar
    if w.isEmpty then none else some (String.mk w)
  else none

/-- `re.search(r'charset=([\w-]+)', content)` at one position. -/
def matchCharsetAt (cs : List Char) : Option String :=
  if "charset=".toList.isPrefixOf cs then
    let w := (cs.drop 8).takeWhile fun c => isWordChar c || c = '-'
    if w.isEmpty then none else some (String.mk w)
  else none

/-- `re.search`: try the single-position matcher at each successive start. -/
def reSearch (f : List Char → Option String) : List Char → Option String
  | [] => f []
  | c :: rest =>
      match f (c :: rest) with
      | some r => some r
      | none => reSearch f rest

/-- `LatinGrammarParser._determine_text_type`: dispatch on the CSS classes —
`foreign` ⇒ LATIN, `gloss` ⇒ GLOSS, `bibl` ⇒ REFERENCE, default ENGLISH.
(`NOTE_CLASSES` is declared in the source but consulted nowhere.) -/
def determineTextType (attrs : List (String × String)) : TextType :=
  let classes := getClasses attrs
  if classes.contains "foreign" then TextType.latin
  else if classes.contains "gloss" then TextType.gloss
  else if classes.contains "bibl" then TextType.reference
  else TextType.english

/-- `LatinGrammarParser._extract_formatting`: tag-implied bold/italic/
underline, substring tests on the `style` attribute, and the `padding-left`
and `text-align` patterns. -/
def extractFormatting (name : String) (attrs : List (String × String)) : FormattingStyle :=
  let tagName := pyLower name
  let style := (domGetAttr attrs "style").getD ""
  { bold := tagName = "strong" || tagName = "b" ||
      strContains style "font-weight: bold" || strContains style "font-weight:bold",
    italic := tagName = "em" || tagName = "i" ||
      strContains style "font-style: italic" || strContains style "font-style:italic",
    underline := tagName = "u" || strContains style "text-decoration: underline",
    padding_left := reSearch matchPaddingAt style.toList,
    text_align := reSearch matchAlignAt style.toList }

/-- `re.match(r'^(\d+[a-z]?)\.?$', text)`, returning group 1 (digits, then an
optional lowercase letter; a trailing period is allowed and stripped). -/
def matchSectionLabel (s : String) : Option String :=
  let cs := s.toList
  let digits := cs.takeWhile Char.isDigit
  if digits.isEmpty then none
  else
    match cs.drop digits.length with
    | [] => some (String.mk digits)
    | [c] =>
        if c.isLower then some (String.mk (digits ++ [c]))
        else if c = '.' then some (String.mk digits)
        else none
    | [c, d] =>
        if c.isLower ∧ d = '.' then some (String.mk (digits ++ [c])) else none
    | _ => none

/-- `LatinGrammarParser._extract_section_number`: the first `strong`
descendant's stripped text against the section-label pattern. -/
def extractSectionNumber (children : List HtmlNode) : Option String :=
  match findInList (isNamed "strong") children with
  | some strongEl => matchSectionLabel (pyStrip (domGetText strongEl))
  | none => none

/-- `LatinGrammarParser._check_footnote`: the first `a` descendant, if it has
a (truthy) `id` beginning with `fn` or `rfn`. -/
def checkFootnote (children : List HtmlNode) : Bool × Option String :=
  match findInList (isNamed "a") children with
  | some (.element _ attrs _) =>
      match domGetAttr attrs "id" with
      | some linkId =>
          if linkId ≠ "" ∧
              ("fn".toList.isPrefixOf linkId.toList ∨ "rfn".toList.isPrefixOf linkId.toList) then
            (true, some linkId)
          else (false, none)
      | none => (false, none)
  | _ => (false, none)

/-- The tag-to-type dict of `LatinGrammarParser._get_node_type`. -/
def nodeTypeMapping : List (String × NodeType) :=
  [("h1", NodeType.heading1), ("h2", NodeType.heading2), ("h3", NodeType.heading3),
   ("h4", NodeType.heading4), ("p", NodeType.paragraph), ("ol", NodeType.listOrdered),
   ("ul", NodeType.listUnordered), ("li", NodeType.listItem), ("table", NodeType.table),
   ("tr", NodeType.tableRow), ("td", NodeType.tableCell), ("th", NodeType.tableHeader),
   ("blockquote", NodeType.blockquote), ("div", NodeType.div), ("span", NodeType.span),
   ("a", NodeType.link), ("strong", NodeType.strong), ("em", NodeType.emphasis)]

/-- `LatinGrammarParser._get_node_type`: `mapping.get(tag_name)`. -/
def getNodeType (tagName : String) : Option NodeType :=
  (List.find? (fun kv => kv.1 = tagName) nodeTypeMapping).map (fun kv => kv.2)

def BLOCK_TAGS : List String := ["p", "h1", "h2", "h3", "h4", "div", "blockquote", "li"]

def INLINE_TAGS : List String := ["span", "strong", "em", "b", "i", "u", "a", "sup", "sub"]

/-- `LatinGrammarParser._parse_inline_element`: type from CSS class,
formatting from the tag and style, text from the raw child strings (nested
tags contribute their `get_text()`), stripped; a non-empty result appends one
segment, with the first CSS class as `html_class`, and bumps the counters. -/
def parseInline (name : String) (attrs : List (String × String))
    (children : List HtmlNode) (stats : Stats) : Option TextSegment × Stats :=
  let textType := determineTextType attrs
  let formatting := extractFormatting name attrs
  let text := pyStrip (domGetTextList children)
  if text ≠ "" then
    let segment : TextSegment :=
      { text := text, text_type := textType, formatting := formatting,
        html_class := match getClasses attrs with
          | [] => none
          | c :: _ => some c }
    let stats1 := { stats with text_segments := stats.text_segments + 1 }
    let stats2 :=
      if textType = TextType.latin then
        { stats1 with latin_segments := stats1.latin_segments + 1 }
      else if textType = TextType.english then
        { stats1 with english_segments := stats1.english_segments + 1 }
      else if textType = TextType.gloss then
        { stats1 with gloss_segments := stats1.gloss_segments + 1 }
      else stats1
    (some segment, stats2)
  else (none, stats)

mutual
/-- `LatinGrammarParser._parse_element`: skip script/style/meta/link/head,
drop unknown tags, convert attributes (identity in this model, see the DOM
note), lift `id`/`style`, detect section number and footnote, then fill the
node through the table, list or mixed-content path, bumping the counters the
source bumps. -/
def parseElement : HtmlNode → Stats → Option ParsedNode × Stats
  | .text _, stats => (none, stats)
  | .element rawName attrs children, stats =>
      let tagName := pyLower rawName
      if tagName = "script" ∨ tagName = "style" ∨ tagName = "meta" ∨
          tagName = "link" ∨ tagName = "head" then
        (none, stats)
      else
        match getNodeType tagName with
        | none => (none, stats)
        | some nodeType =>
            let nodeId := domGetAttr attrs "id"
            let inlineStyle := domGetAttr attrs "style"
            let sectionNumber := extractSectionNumber children
            let footnote := checkFootnote children
            if tagName = "table" then
              let r := parseTable children stats
              let stats1 := { r.2 with tables := r.2.tables + 1 }
              (some (.mk nodeType nodeId [] attrs inlineStyle r.1 sectionNumber
                  footnote.1 footnote.2 false),
               { stats1 with total_nodes := stats1.total_nodes + 1 })
            else if tagName = "ol" ∨ tagName = "ul" then
              let r := parseList children stats
              let stats1 := { r.2 with lists := r.2.lists + 1 }
              (some (.mk nodeType nodeId [] attrs inlineStyle r.1 sectionNumber
                  footnote.1 footnote.2 false),
               { stats1 with total_nodes := stats1.total_nodes + 1 })
            else
              let r := parseContent rawName attrs children stats
              (some (.mk nodeType nodeId r.1 attrs inlineStyle r.2.1 sectionNumber
                  footnote.1 footnote.2 false),
               { r.2.2 with total_nodes := r.2.2.total_nodes + 1 })

/-- `LatinGrammarParser._parse_content` over the children of the element
`(parentName, parentAttrs)`: direct text becomes ENGLISH segments with the
parent's formatting; inline tags become segments via `_parse_inline_element`;
block tags recurse; anything else contributes nothing. -/
def parseContent (parentName : String) (parentAttrs : List (String × String)) :
    List HtmlNode → Stats → List TextSegment × List ParsedNode × Stats
  | [], stats => ([], [], stats)
  | .text s :: rest, stats =>
      let t := pyStrip s
      if t ≠ "" then
        let segment : TextSegment :=
          { text := t, text_type := TextType.english,
            formatting := extractFormatting parentName parentAttrs }
        let stats1 := { stats with
          text_segments := stats.text_segments + 1,
          english_segments := stats.english_segments + 1 }
        let r := parseContent parentName parentAttrs rest stats1
        (segment :: r.1, r.2.1, r.2.2)
      else
        parseContent parentName parentAttrs rest stats
  | .element nm at_ ch :: rest, stats =>
      let tagName := pyLower nm
      if INLINE_TAGS.contains tagName then
        let ri := parseInline nm at_ ch stats
        let r := parseContent parentName parentAttrs rest ri.2
        (ri.1.toList ++ r.1, r.2.1, r.2.2)
      else if BLOCK_TAGS.contains tagName then
        let re := parseElement (.element nm at_ ch) stats
        let r := parseContent parentName parentAttrs rest re.2
        (r.1, re.1.toList ++ r.2.1, r.2.2)
      else
        parseContent parentName parentAttrs rest stats

/-- `LatinGrammarParser._parse_table`: `find_all('tr', recursive=False)` —
each direct `tr` child becomes a TABLE_ROW node (raw attribute copy, no id
lift, no style lift) holding its direct `td`/`th` cells. -/
def parseTable : List HtmlNode → Stats → List ParsedNode × Stats
  | [], stats => ([], stats)
  | .element nm rowAttrs rowChildren :: rest, stats =>
      if nm = "tr" then
        let rc := parseRowCells rowChildren stats
        let rowNode : ParsedNode :=
          .mk NodeType.tableRow none [] rowAttrs none rc.1 none false none false
        let r := parseTable rest rc.2
        (rowNode :: r.1, r.2)
      else
        parseTable rest stats
  | .text _ :: rest, stats => parseTable rest stats

/-- The cell loop of `_parse_table`: `find_all(['td','th'],
recursive=False)`; each cell's content goes through the mixed-content parser
with the cell as parent. -/
def parseRowCells : List HtmlNode → Stats → List ParsedNode × Stats
  | [], stats => ([], stats)
  | .element nm cellAttrs cellChildren :: rest, stats =>
      if nm = "td" ∨ nm = "th" then
        let cellType := if nm = "th" then NodeType.tableHeader else NodeType.tableCell
        let rc := parseContent nm cellAttrs cellChildren stats
        let cellNode : ParsedNode :=
          .mk cellType none rc.1 cellAttrs (domGetAttr cellAttrs "style") rc.2.1
            none false none false
        let r := parseRowCells rest rc.2.2
        (cellNode :: r.1, r.2)
      else
        parseRowCells rest stats
  | .text _ :: rest, stats => parseRowCells rest stats

/-- `LatinGrammarParser._parse_list`: `find_all('li', recursive=False)`, each
item through `_parse_element`. -/
def parseList : List HtmlNode → Stats → List ParsedNode × Stats
  | [], stats => ([], stats)
  | .element nm liAttrs liChildren :: rest, stats =>
      if nm = "li" then
        let ri := parseElement (.element nm liAttrs liChildren) stats
        let r := parseList rest ri.2
        (ri.1.toList ++ r.1, r.2)
      else
        parseList rest stats
  | .text _ :: rest, stats => parseList rest stats
end

/-- Python dict assignment `d[k] = v` on an insertion-ordered dict. -/
def dictInsert (k : String) (v : ParsedNode) :
    List (String × ParsedNode) → List (String × ParsedNode)
  | [] => [(k, v)]
  | (k', v') :: rest => if k' = k then (k, v) :: rest else (k', v') :: dictInsert k v rest

/-- The main loop of `parse_html` over the root's children: parse each tag,
collect the produced nodes, and index them into `sections` (truthy id) and
`footnotes`. -/
def parseTopNodes (children : List HtmlNode) (nodes : List ParsedNode)
    (sections footnotes : List (String × ParsedNode)) (stats : Stats) :
    List ParsedNode × List (String × ParsedNode) × List (String × ParsedNode) × Stats :=
  match children with
  | [] => (nodes, sections, footnotes, stats)
  | .text _ :: rest => parseTopNodes rest nodes sections footnotes stats
  | .element nm attrs ch :: rest =>
      let r := parseElement (.element nm attrs ch) stats
      match r.1 with
      | none => parseTopNodes rest nodes sections footnotes r.2
      | some parsed =>
          let sections' :=
            match parsed.node_id with
            | some i => if i ≠ "" then dictInsert i parsed sections else sections
            | none => sections
          let footnotes' :=
            if parsed.is_footnote then
              match parsed.footnote_id with
              | some fid => if fid ≠ "" then dictInsert fid parsed footnotes else footnotes
              | none => footnotes
            else footnotes
          parseTopNodes rest (nodes ++ [parsed]) sections' footnotes' r.2

/-- `LatinGrammarParser._extract_title`. -/
def extractTitle (soup : List HtmlNode) : String :=
  match findInList (isNamed "title") soup with
  | some t => pyStrip (domGetText t)
  | none => "Untitled"

def isContentTypeMeta (n : HtmlNode) : Bool :=
  match n with
  | .element nm attrs _ => nm = "meta" && domGetAttr attrs "http-equiv" = some "Content-Type"
  | .text _ => false

/-- `LatinGrammarParser._extract_encoding`. -/
def extractEncoding (soup : List HtmlNode) : String :=
  match findInList isContentTypeMeta soup with
  | some (.element _ attrs _) =>
      match domGetAttr attrs "content" with
      | some content =>
          match reSearch matchCharsetAt content.toList with
          | some charset => charset
          | none => "utf-8"
      | none => "utf-8"
  | _ => "utf-8"

def isStylesheetLink (n : HtmlNode) : Bool :=
  match n with
  | .element nm attrs _ =>
      nm = "link" &&
      (match domGetAttr attrs "rel" with
       | some rel => rel = "stylesheet" || (pySplitWs rel).contains "stylesheet"
       | none => false)
  | .text _ => false

/-- `LatinGrammarParser._extract_css_link`. -/
def extractCssLink (soup : List HtmlNode) : Option String :=
  match findInList isStylesheetLink soup with
  | some (.element _ attrs _) => domGetAttr attrs "href"
  | _ => none

def findBody (soup : List HtmlNode) : Option HtmlNode :=
  findInList (isNamed "body") soup

/-- `LatinGrammarParser.parse_html`: metadata, then the body's children — or,
when no `body` element exists, the whole soup's top level (`body = soup`
fallback; there is no failure path) — parsed into nodes with the `sections`
and `footnotes` indices, with the counters reset beforehand. -/
def parseHtml (soup : List HtmlNode) (filename : Option String) : ParsedDocument :=
  let title := extractTitle soup
  let encoding := extractEncoding soup
  let cssFile := extractCssLink soup
  let bodyChildren :=
    match findBody soup with
    | some (.element _ _ cs) => cs
    | _ => soup
  let r := parseTopNodes bodyChildren [] [] [] {}
  { title := title, encoding := encoding, nodes := r.1, sections := r.2.1,
    footnotes := r.2.2.1, stats := r.2.2.2, original_filename := filename,
    css_file := cssFile }

/-! ## Claim C2 -/

/-- C2 counterexample: inputs with no navigable root element — the empty
document, or a document holding only bare text — do not fail: `parse_html`
has no `ParseError` path at all (the source falls back to `body = soup`).
Both inputs yield an ordinary `ParsedDocument` with an empty node list. -/
theorem C2_counterexample :
    findBody [] = none ∧
    parseHtml [] none =
      { title := "Untitled", encoding := "utf-8", nodes := [], sections := [],
        footnotes := [], stats := {}, original_filename := none, css_file := none } ∧
    findBody [.text "no root"] = none ∧
    (parseHtml [.text "no root"] none).nodes = [] :=
  ⟨rfl, rfl, rfl, rfl⟩

/-- C2 (amended): the parse operation never fails.  When no `body` element
can be found it treats the entire document as the root (and still returns a
document), and unknown elements contribute nothing to the output tree. -/
theorem C2_no_parse_error :
    (∀ (soup : List HtmlNode) (fn : Option String), findBody soup = none →
      parseHtml soup fn =
        { title := extractTitle soup, encoding := extractEncoding soup,
          nodes := (parseTopNodes soup [] [] [] {}).1,
          sections := (parseTopNodes soup [] [] [] {}).2.1,
          footnotes := (parseTopNodes soup [] [] [] {}).2.2.1,
          stats := (parseTopNodes soup [] [] [] {}).2.2.2,
          original_filename := fn, css_file := extractCssLink soup }) ∧
    (∀ (nm : String) (attrs : List (String × String)) (ch : List HtmlNode) (stats : Stats),
      getNodeType (pyLower nm) = none →
      parseElement (.element nm attrs ch) stats = (none, stats)) := by
  constructor
  · intro soup fn h
    rw [parseHtml]
    simp only [h]
  · intro nm attrs ch stats h
    rw [parseElement]
    simp only [h]
    split_ifs <;> rfl

theorem C2_witness :
    (findBody [HtmlNode.text "x"] = none ∧
      parseHtml [HtmlNode.text "x"] none =
        { title := extractTitle [HtmlNode.text "x"],
          encoding := extractEncoding [HtmlNode.text "x"],
          nodes := (parseTopNodes [HtmlNode.text "x"] [] [] [] {}).1,
          sections := (parseTopNodes [HtmlNode.text "x"] [] [] [] {}).2.1,
          footnotes := (parseTopNodes [HtmlNode.text "x"] [] [] [] {}).2.2.1,
          stats := (parseTopNodes [HtmlNode.text "x"] [] [] [] {}).2.2.2,
          original_filename := none,
          css_file := extractCssLink [HtmlNode.text "x"] }) ∧
    (getNodeType (pyLower "video") = none ∧
      parseElement (.element "video" [] []) {} = (none, {})) :=
  ⟨⟨rfl, C2_no_parse_error.1 [HtmlNode.text "x"] none rfl⟩,
   ⟨rfl, C2_no_parse_error.2 "video" [] [] {} rfl⟩⟩

/-! ## Claim C10 -/

theorem parseContent_skip (parentName : String) (parentAttrs : List (String × String))
    (nm : String) (at_ : List (String × String)) (ch rest : List HtmlNode) (stats : Stats)
    (hInline : pyLower nm ∉ INLINE_TAGS)
    (hBlock : pyLower nm ∉ BLOCK_TAGS) :
    parseContent parentName parentAttrs (.element nm at_ ch :: rest) stats =
      parseContent parentName parentAttrs rest stats := by
  rw [parseContent]
  simp [hInline, hBlock]

/-- C10: a `table`, `ol` or `ul` element occurring in the mixed content of a
block element is dropped with all of its content: `_parse_content` only
recurses into the fixed inline and block tag sets, and these tags are in
neither. -/
theorem C10_nested_table_dropped (parentName : String) (parentAttrs : List (String × String))
    (before after : List HtmlNode) (nm : String) (at_ : List (String × String))
    (ch : List HtmlNode) (stats : Stats)
    (h : pyLower nm = "table" ∨ pyLower nm = "ol" ∨ pyLower nm = "ul") :
    parseContent parentName parentAttrs (before ++ .element nm at_ ch :: after) stats =
      parseContent parentName parentAttrs (before ++ after) stats := by
  have hInline : pyLower nm ∉ INLINE_TAGS := by
    rcases h with h | h | h <;> rw [h] <;> decide
  have hBlock : pyLower nm ∉ BLOCK_TAGS := by
    rcases h with h | h | h <;> rw [h] <;> decide
  induction before generalizing stats with
  | nil => simpa using parseContent_skip parentName parentAttrs nm at_ ch after stats hInline hBlock
  | cons hd tl ih =>
    cases hd with
    | text s =>
        rw [List.cons_append, List.cons_append, parseContent, parseContent]
        split_ifs <;> simp [ih]
    | element nm2 at2 ch2 =>
        rw [List.cons_append, List.cons_append, parseContent, parseContent]
        split_ifs <;> simp [ih]

def tableInDiv : HtmlNode :=
  .element "div" []
    [.element "table" [] [.element "tr" [] [.element "td" [] [.text "dropped"]]]]

theorem C10_witness :
    (pyLower "table" = "table" ∨ pyLower "table" = "ol" ∨ pyLower "table" = "ul") ∧
    parseContent "div" []
        ([] ++ HtmlNode.element "table" [] [.element "tr" [] [.element "td" [] [.text "dropped"]]] :: []) {} =
      parseContent "div" [] ([] ++ []) {} :=
  ⟨Or.inl rfl,
   C10_nested_table_dropped "div" [] [] [] "table" []
     [.element "tr" [] [.element "td" [] [.text "dropped"]]] {} (Or.inl rfl)⟩

/-! ## Claim C4: stored stats vs. fresh recomputation -/

def statsAdd (a b : Stats) : Stats :=
  { total_nodes := a.total_nodes + b.total_nodes,
    text_segments := a.text_segments + b.text_segments,
    latin_segments := a.latin_segments + b.latin_segments,
    english_segments := a.english_segments + b.english_segments,
    gloss_segments := a.gloss_segments + b.gloss_segments,
    tables := a.tables + b.tables,
    lists := a.lists + b.lists }

theorem statsAdd_zero_left (a : Stats) : statsAdd {} a = a := by
  simp [statsAdd]

theorem statsAdd_zero_right (a : Stats) : statsAdd a {} = a := by
  simp [statsAdd]

theorem statsAdd_assoc (a b c : Stats) :
    statsAdd (statsAdd a b) c = statsAdd a (statsAdd b c) := by
  simp [statsAdd, Nat.add_assoc]

/-- The counter contribution of a list of text segments. -/
def segStats (segs : List TextSegment) : Stats :=
  { text_segments := segs.length,
    latin_segments := countOfType TextType.latin segs,
    english_segments := countOfType TextType.english segs,
    gloss_segments := countOfType TextType.gloss segs }

mutual
/-- The fresh stats recomputation the claim compares against (spec §4.1: "a
stats-recomputation function that walks the tree once and returns the
counters"; the source has no such function, so this follows the spec's
words): every node counts toward the total, segments count by type, `table`
and list nodes count toward their counters. -/
def freshStats : ParsedNode → Stats
  | .mk nt _ segs _ _ children _ _ _ _ =>
      statsAdd
        (statsAdd { segStats segs with total_nodes := 1 }
          { tables := if nt = NodeType.table then 1 else 0,
            lists := if nt = NodeType.listOrdered ∨ nt = NodeType.listUnordered then 1 else 0 })
        (freshStatsList children)

def freshStatsList : List ParsedNode → Stats
  | [] => {}
  | n :: ns => statsAdd (freshStats n) (freshStatsList ns)
end

def recomputeStats (doc : ParsedDocument) : Stats := freshStatsList doc.nodes

mutual
/-- The counters the parser actually accumulated for a produced subtree: like
`freshStats`, except that below a `table` node the row and cell nodes
themselves (built by `_parse_table` without passing through
`_parse_element`) contribute nothing to `total_nodes`. -/
def deltaNode : ParsedNode → Stats
  | .mk nt _ segs _ _ children _ _ _ _ =>
      statsAdd
        (statsAdd { segStats segs with total_nodes := 1 }
          { tables := if nt = NodeType.table then 1 else 0,
            lists := if nt = NodeType.listOrdered ∨ nt = NodeType.listUnordered then 1 else 0 })
        (if nt = NodeType.table then deltaRows children else deltaForest children)

def deltaRows : List ParsedNode → Stats
  | [] => {}
  | .mk _ _ _ _ _ rowChildren _ _ _ _ :: rest =>
      statsAdd (deltaCells rowChildren) (deltaRows rest)

def deltaCells : List ParsedNode → Stats
  | [] => {}
  | .mk _ _ cellSegs _ _ cellChildren _ _ _ _ :: rest =>
      statsAdd (statsAdd (segStats cellSegs) (deltaForest cellChildren)) (deltaCells rest)

def deltaForest : List ParsedNode → Stats
  | [] => {}
  | n :: ns => statsAdd (deltaNode n) (deltaForest ns)
end

def deltaOpt : Option ParsedNode → Stats
  | none => {}
  | some n => deltaNode n

mutual
/-- The nodes a fresh walk counts that the parser's accumulation did not: the
rows and cells under each `table` node. -/
def missNode : ParsedNode → Nat
  | .mk nt _ _ _ _ children _ _ _ _ =>
      if nt = NodeType.table then missRows children else missForest children

def missRows : List ParsedNode → Nat
  | [] => 0
  | .mk _ _ _ _ _ rowChildren _ _ _ _ :: rest => 1 + missCells rowChildren + missRows rest

def missCells : List ParsedNode → Nat
  | [] => 0
  | .mk _ _ _ _ _ cellChildren _ _ _ _ :: rest =>
      1 + missForest cellChildren + missCells rest

def missForest : List ParsedNode → Nat
  | [] => 0
  | n :: ns => missNode n + missForest ns
end

mutual
/-- Structural facts about parser output that relate `deltaNode` to
`freshStats`: a `table` node carries no own segments, its children are
segment-less TABLE_ROW nodes, and their children are TABLE_CELL/TABLE_HEADER
nodes. -/
def wfNode : ParsedNode → Bool
  | .mk nt _ segs _ _ children _ _ _ _ =>
      if nt = NodeType.table then segs.isEmpty && wfRows children
      else wfForest children

def wfRows : List ParsedNode → Bool
  | [] => true
  | .mk nt _ segs _ _ rowChildren _ _ _ _ :: rest =>
      nt = NodeType.tableRow && segs.isEmpty && wfCells rowChildren && wfRows rest

def wfCells : List ParsedNode → Bool
  | [] => true
  | .mk nt _ _ _ _ cellChildren _ _ _ _ :: rest =>
      (nt = NodeType.tableCell ∨ nt = NodeType.tableHeader) && wfForest cellChildren &&
        wfCells rest

def wfForest : List ParsedNode → Bool
  | [] => true
  | n :: ns => wfNode n && wfForest ns
end

def wfOpt : Option ParsedNode → Bool
  | none => true
  | some n => wfNode n

/-- On well-formed (parser-shaped) trees, the fresh recomputation differs
from the accumulated counters exactly by adding the uncounted row/cell nodes
to `total_nodes`. -/
theorem fresh_eq_delta_miss :
    ∀ N : Nat,
      (∀ n : ParsedNode, sizeOf n < N → wfNode n = true →
        freshStats n = { deltaNode n with total_nodes := (deltaNode n).total_nodes + missNode n }) ∧
      (∀ ls : List ParsedNode, sizeOf ls < N →
        (wfRows ls = true →
          freshStatsList ls = { deltaRows ls with total_nodes := (deltaRows ls).total_nodes + missRows ls }) ∧
        (wfCells ls = true →
          freshStatsList ls = { deltaCells ls with total_nodes := (deltaCells ls).total_nodes + missCells ls }) ∧
        (wfForest ls = true →
          freshStatsList ls = { deltaForest ls with total_nodes := (deltaForest ls).total_nodes + missForest ls })) := by
  intro N
  induction N using Nat.strong_induction_on with
  | _ N ih =>
    constructor
    · rintro ⟨nt, ni, segs, attrs, ist, children, sn, fn, fid, hcr⟩ hsz hwf
      have hszc : sizeOf children < sizeOf (ParsedNode.mk nt ni segs attrs ist children sn fn fid hcr) := by
        simp [ParsedNode.mk.sizeOf_spec]
        omega
      have hch := (ih _ hsz).2 children hszc
      rw [wfNode] at hwf
      by_cases ht : nt = NodeType.table
      · rw [if_pos ht] at hwf
        have hrows := hch.1 (by simpa using (Bool.and_elim_right hwf))
        rw [freshStats, deltaNode, missNode, hrows]
        simp [statsAdd, ht]
        all_goals omega
      · rw [if_neg ht] at hwf
        have hfor := hch.2.2 hwf
        rw [freshStats, deltaNode, missNode, hfor]
        simp [statsAdd, ht]
        all_goals omega
    · intro ls hsz
      match ls with
      | [] =>
        refine ⟨fun _ => ?_, fun _ => ?_, fun _ => ?_⟩ <;>
          simp [freshStatsList, deltaRows, deltaCells, deltaForest, missRows, missCells,
            missForest]
      | (ParsedNode.mk nt ni segs attrs ist children sn fn fid hcr) :: rest =>
        have hszn : sizeOf (ParsedNode.mk nt ni segs attrs ist children sn fn fid hcr) <
            sizeOf ((ParsedNode.mk nt ni segs attrs ist children sn fn fid hcr) :: rest) := by
          simp only [List.cons.sizeOf_spec]
          omega
        have hszr : sizeOf rest <
            sizeOf ((ParsedNode.mk nt ni segs attrs ist children sn fn fid hcr) :: rest) := by
          simp only [List.cons.sizeOf_spec]
          omega
        have hszc : sizeOf children <
            sizeOf ((ParsedNode.mk nt ni segs attrs ist children sn fn fid hcr) :: rest) := by
          simp only [List.cons.sizeOf_spec, ParsedNode.mk.sizeOf_spec]
          omega
        have ihn := (ih _ hsz).1 _ hszn
        have ihr := (ih _ hsz).2 rest hszr
        have ihc := (ih _ hsz).2 children hszc
        refine ⟨fun hwf => ?_, fun hwf => ?_, fun hwf => ?_⟩
        · -- rows: head is a segment-less TABLE_ROW whose children are cells
          rw [wfRows] at hwf
          simp only [Bool.and_eq_true, decide_eq_true_eq] at hwf
          obtain ⟨⟨⟨hnt, hsegs⟩, hcells⟩, hrest⟩ := hwf
          have hempty : segs = [] := by simpa [List.isEmpty_iff] using hsegs
          rw [freshStatsList, freshStats, deltaRows, missRows,
            ihc.2.1 hcells, ihr.1 hrest]
          subst hempty hnt
          simp [statsAdd, segStats, countOfType]
          all_goals omega
        · -- cells: head is a TABLE_CELL/TABLE_HEADER with generic children
          rw [wfCells] at hwf
          simp only [Bool.and_eq_true, decide_eq_true_eq] at hwf
          obtain ⟨⟨hnt, hfor⟩, hrest⟩ := hwf
          have hnt1 : ¬ nt = NodeType.table := by
            rcases hnt with h | h <;> subst h <;> decide
          have hnt2 : ¬ (nt = NodeType.listOrdered ∨ nt = NodeType.listUnordered) := by
            rcases hnt with h | h <;> subst h <;> decide
          rw [freshStatsList, freshStats, deltaCells, missCells,
            ihc.2.2 hfor, ihr.2.1 hrest, if_neg hnt1, if_neg hnt2]
          simp [statsAdd, segStats]
          all_goals omega
        · -- forest
          rw [wfForest] at hwf
          simp only [Bool.and_eq_true] at hwf
          obtain ⟨hn, hrest⟩ := hwf
          rw [freshStatsList, deltaForest, missForest, ihn hn, ihr.2.2 hrest]
          simp [statsAdd]
          all_goals omega

def segStatsOpt : Option TextSegment → Stats
  | none => {}
  | some seg => segStats [seg]

theorem segStats_nil : segStats [] = {} := by
  simp [segStats, countOfType]

theorem segStats_cons (s : TextSegment) (rest : List TextSegment) :
    segStats (s :: rest) = statsAdd (segStats [s]) (segStats rest) := by
  simp only [segStats, countOfType, List.countP_cons, List.countP_nil, statsAdd,
    List.length_cons, Stats.mk.injEq]
  norm_num
  refine ⟨by omega, ?_, ?_, ?_⟩ <;> split_ifs <;> omega

theorem segStats_optCons (o : Option TextSegment) (rest : List TextSegment) :
    segStats (o.toList ++ rest) = statsAdd (segStatsOpt o) (segStats rest) := by
  cases o with
  | none => simp [segStatsOpt, statsAdd_zero_left]
  | some s => simpa [segStatsOpt] using segStats_cons s rest

theorem deltaForest_optCons (o : Option ParsedNode) (ns : List ParsedNode) :
    deltaForest (o.toList ++ ns) = statsAdd (deltaOpt o) (deltaForest ns) := by
  cases o with
  | none => simp [deltaOpt, statsAdd_zero_left]
  | some n => simp [deltaForest, deltaOpt]

theorem wfForest_optCons (o : Option ParsedNode) (ns : List ParsedNode) :
    wfForest (o.toList ++ ns) = (wfOpt o && wfForest ns) := by
  cases o with
  | none => simp [wfOpt]
  | some n => simp [wfForest, wfOpt]

theorem getNodeType_eq_some {t : String} {nt : NodeType}
    (h : getNodeType t = some nt) : (t, nt) ∈ nodeTypeMapping := by
  simp only [getNodeType, Option.map_eq_some'] at h
  obtain ⟨kv, hf, hkv⟩ := h
  have hmem := List.mem_of_find?_eq_some hf
  have hp : kv.1 = t := by simpa using List.find?_some hf
  have : kv = (t, nt) := by
    rcases kv with ⟨a, b⟩
    simp_all
  rwa [this] at hmem

theorem getNodeType_table_iff (t : String) :
    getNodeType t = some NodeType.table ↔ t = "table" := by
  constructor
  · intro h
    have hmem := getNodeType_eq_some h
    have : ∀ kv ∈ nodeTypeMapping, kv.2 = NodeType.table → kv.1 = "table" := by decide
    simpa using this (t, NodeType.table) hmem rfl
  · intro h; subst h; rfl

theorem getNodeType_ol_iff (t : String) :
    getNodeType t = some NodeType.listOrdered ↔ t = "ol" := by
  constructor
  · intro h
    have hmem := getNodeType_eq_some h
    have : ∀ kv ∈ nodeTypeMapping, kv.2 = NodeType.listOrdered → kv.1 = "ol" := by decide
    simpa using this (t, NodeType.listOrdered) hmem rfl
  · intro h; subst h; rfl

theorem getNodeType_ul_iff (t : String) :
    getNodeType t = some NodeType.listUnordered ↔ t = "ul" := by
  constructor
  · intro h
    have hmem := getNodeType_eq_some h
    have : ∀ kv ∈ nodeTypeMapping, kv.2 = NodeType.listUnordered → kv.1 = "ul" := by decide
    simpa using this (t, NodeType.listUnordered) hmem rfl
  · intro h; subst h; rfl

/-- `_parse_inline_element` is stats-additive: its result segment does not
depend on the incoming counters, and the counters grow by exactly that
segment's contribution. -/
theorem parseInline_char (nm : String) (attrs : List (String × String))
    (ch : List HtmlNode) :
    ∃ r : Option TextSegment,
      ∀ stats, parseInline nm attrs ch stats = (r, statsAdd stats (segStatsOpt r)) := by
  unfold parseInline
  by_cases h : pyStrip (domGetTextList ch) = ""
  · exact ⟨none, fun stats => by simp [h, segStatsOpt, statsAdd_zero_right]⟩
  · refine ⟨some ⟨pyStrip (domGetTextList ch), determineTextType attrs,
      extractFormatting nm attrs,
      (match getClasses attrs with
        | [] => none
        | c :: _ => some c)⟩, fun stats => ?_⟩
    rcases htt : determineTextType attrs <;>
      simp [h, htt, segStatsOpt, segStats, countOfType, statsAdd, Stats.mk.injEq]

/-- Stats-additivity of `_parse_element`: the produced node is independent of
the incoming counters, the counters grow by exactly the produced subtree's
contribution (`deltaOpt`), and the produced subtree is parser-shaped
(`wfOpt`). -/
def elemChar (e : HtmlNode) : Prop :=
  ∃ r : Option ParsedNode,
    (∀ stats, parseElement e stats = (r, statsAdd stats (deltaOpt r))) ∧ wfOpt r = true

def contentChar (cs : List HtmlNode) : Prop :=
  ∀ pn pa, ∃ (segs : List TextSegment) (nodes : List ParsedNode),
    (∀ stats, parseContent pn pa cs stats =
      (segs, nodes, statsAdd stats (statsAdd (segStats segs) (deltaForest nodes)))) ∧
    wfForest nodes = true

def tableChar (cs : List HtmlNode) : Prop :=
  ∃ rows : List ParsedNode,
    (∀ stats, parseTable cs stats = (rows, statsAdd stats (deltaRows rows))) ∧
    wfRows rows = true

def cellsChar (cs : List HtmlNode) : Prop :=
  ∃ cells : List ParsedNode,
    (∀ stats, parseRowCells cs stats = (cells, statsAdd stats (deltaCells cells))) ∧
    wfCells cells = true

def listChar (cs : List HtmlNode) : Prop :=
  ∃ ns : List ParsedNode,
    (∀ stats, parseList cs stats = (ns, statsAdd stats (deltaForest ns))) ∧
    wfForest ns = true

theorem parseChar :
    ∀ N : Nat,
      (∀ e : HtmlNode, sizeOf e < N → elemChar e) ∧
      (∀ cs : List HtmlNode, sizeOf cs < N →
        contentChar cs ∧ tableChar cs ∧ cellsChar cs ∧ listChar cs) := by
  intro N
  induction N using Nat.strong_induction_on with
  | _ N ih =>
    constructor
    · intro e hsz
      cases e with
      | text s =>
        exact ⟨none, fun stats => by simp [parseElement, deltaOpt, statsAdd_zero_right], rfl⟩
      | element rawName attrs children =>
        have hszc : sizeOf children < sizeOf (HtmlNode.element rawName attrs children) := by
          simp only [HtmlNode.element.sizeOf_spec]; omega
        obtain ⟨hPC, hPT, hPRC, hPL⟩ := (ih _ hsz).2 children hszc
        by_cases hskip : pyLower rawName = "script" ∨ pyLower rawName = "style" ∨
            pyLower rawName = "meta" ∨ pyLower rawName = "link" ∨ pyLower rawName = "head"
        · refine ⟨none, fun stats => ?_, rfl⟩
          rw [parseElement]
          simp [hskip, deltaOpt, statsAdd_zero_right]
        · cases hnt : getNodeType (pyLower rawName) with
          | none =>
            refine ⟨none, fun stats => ?_, rfl⟩
            rw [parseElement]
            simp [hskip, hnt, deltaOpt, statsAdd_zero_right]
          | some nt =>
            by_cases htab : pyLower rawName = "table"
            · have hnt' : nt = NodeType.table := by
                rw [htab] at hnt
                have h0 : getNodeType "table" = some NodeType.table := by decide
                rw [h0] at hnt
                exact (Option.some.injEq _ _ ▸ hnt).symm
              subst hnt'
              obtain ⟨rows, hRows, hWfRows⟩ := hPT
              refine ⟨some (.mk NodeType.table (domGetAttr attrs "id") [] attrs
                  (domGetAttr attrs "style") rows (extractSectionNumber children)
                  (checkFootnote children).1 (checkFootnote children).2 false),
                fun stats => ?_, ?_⟩
              · rw [parseElement]
                simp only [htab ▸ hnt, hRows stats]
                simp [hskip, htab, htab ▸ hnt, deltaOpt, deltaNode, statsAdd, segStats,
                  countOfType]
                omega
              · simp [wfOpt, wfNode, hWfRows]
            · by_cases hol : pyLower rawName = "ol" ∨ pyLower rawName = "ul"
              · have hnt' : nt = NodeType.listOrdered ∨ nt = NodeType.listUnordered := by
                  rcases hol with h | h <;> rw [h] at hnt
                  · left
                    have h0 : getNodeType "ol" = some NodeType.listOrdered := by decide
                    rw [h0] at hnt
                    exact (Option.some.injEq _ _ ▸ hnt).symm
                  · right
                    have h0 : getNodeType "ul" = some NodeType.listUnordered := by decide
                    rw [h0] at hnt
                    exact (Option.some.injEq _ _ ▸ hnt).symm
                have hnt2 : ¬ nt = NodeType.table := by
                  rcases hnt' with h | h <;> subst h <;> decide
                obtain ⟨items, hItems, hWfItems⟩ := hPL
                refine ⟨some (.mk nt (domGetAttr attrs "id") [] attrs
                    (domGetAttr attrs "style") items (extractSectionNumber children)
                    (checkFootnote children).1 (checkFootnote children).2 false),
                  fun stats => ?_, ?_⟩
                · rw [parseElement]
                  rcases hol with hcase | hcase <;>
                  · simp only [hcase ▸ hnt, hItems stats]
                    simp [hskip, htab, hcase, hcase ▸ hnt, deltaOpt, deltaNode, statsAdd,
                      segStats, countOfType, hnt2, hnt']
                    omega
                · simp [wfOpt, wfNode, hnt2, hWfItems]
              · have hnt2 : ¬ nt = NodeType.table := by
                  intro h
                  exact htab ((getNodeType_table_iff _).mp (h ▸ hnt))
                have hnt3 : ¬ (nt = NodeType.listOrdered ∨ nt = NodeType.listUnordered) := by
                  rintro (h | h)
                  · exact hol (Or.inl ((getNodeType_ol_iff _).mp (h ▸ hnt)))
                  · exact hol (Or.inr ((getNodeType_ul_iff _).mp (h ▸ hnt)))
                obtain ⟨segs, nodes, hCont, hWfNodes⟩ := hPC rawName attrs
                refine ⟨some (.mk nt (domGetAttr attrs "id") segs attrs
                    (domGetAttr attrs "style") nodes (extractSectionNumber children)
                    (checkFootnote children).1 (checkFootnote children).2 false),
                  fun stats => ?_, ?_⟩
                · rw [parseElement]
                  simp only [hnt, hCont stats]
                  simp [hskip, htab, hol, hnt, deltaOpt, deltaNode, statsAdd, segStats,
                    countOfType, hnt2, hnt3]
                  omega
                · simp [wfOpt, wfNode, hnt2, hWfNodes]
    · intro cs hsz
      match cs with
      | [] =>
        refine ⟨fun pn pa => ⟨[], [], fun stats => ?_, rfl⟩, ⟨[], fun stats => ?_, rfl⟩,
          ⟨[], fun stats => ?_, rfl⟩, ⟨[], fun stats => ?_, rfl⟩⟩ <;>
          simp [parseContent, parseTable, parseRowCells, parseList, deltaForest, deltaRows,
            deltaCells, segStats_nil, statsAdd_zero_right]
      | c :: rest =>
        have hszc : sizeOf c < sizeOf (c :: rest) := by
          simp only [List.cons.sizeOf_spec]; omega
        have hszr : sizeOf rest < sizeOf (c :: rest) := by
          simp only [List.cons.sizeOf_spec]; omega
        have hEc := (ih _ hsz).1 c hszc
        obtain ⟨hRC, hRT, hRRC, hRL⟩ := (ih _ hsz).2 rest hszr
        cases c with
        | text s =>
          obtain ⟨rows, hRows, hWfRows⟩ := hRT
          obtain ⟨cells, hCells, hWfCells⟩ := hRRC
          obtain ⟨items, hItems, hWfItems⟩ := hRL
          refine ⟨fun pn pa => ?_, ⟨rows, fun stats => ?_, hWfRows⟩,
            ⟨cells, fun stats => ?_, hWfCells⟩, ⟨items, fun stats => ?_, hWfItems⟩⟩
          · obtain ⟨segs, nodes, hCont, hWfNodes⟩ := hRC pn pa
            by_cases ht : pyStrip s = ""
            · refine ⟨segs, nodes, fun stats => ?_, hWfNodes⟩
              rw [parseContent]
              simp [ht, hCont stats]
            · refine ⟨(⟨pyStrip s, TextType.english,
                extractFormatting pn pa, none⟩ : TextSegment) :: segs, nodes,
                fun stats => ?_, hWfNodes⟩
              rw [parseContent]
              simp only [ht, hCont]
              simp [ht, statsAdd, segStats_cons, segStats, countOfType]
              omega
          · rw [parseTable]; exact hRows stats
          · rw [parseRowCells]; exact hCells stats
          · rw [parseList]; exact hItems stats
        | element nm2 at2 ch2 =>
          have hszch : sizeOf ch2 < sizeOf (HtmlNode.element nm2 at2 ch2 :: rest) := by
            simp only [List.cons.sizeOf_spec, HtmlNode.element.sizeOf_spec]; omega
          obtain ⟨hCch, hTch, hRCch, hLch⟩ := (ih _ hsz).2 ch2 hszch
          obtain ⟨r, hInline⟩ := parseInline_char nm2 at2 ch2
          obtain ⟨re, hElem, hWfElem⟩ := hEc
          obtain ⟨rows, hRows, hWfRows⟩ := hRT
          obtain ⟨cells, hCells, hWfCells⟩ := hRRC
          obtain ⟨items, hItems, hWfItems⟩ := hRL
          refine ⟨fun pn pa => ?_, ?_, ?_, ?_⟩
          · -- contentChar
            obtain ⟨segs, nodes, hCont, hWfNodes⟩ := hRC pn pa
            by_cases hin : pyLower nm2 ∈ INLINE_TAGS
            · refine ⟨r.toList ++ segs, nodes, fun stats => ?_, hWfNodes⟩
              rw [parseContent]
              simp only [hin, if_pos, reduceIte, ite_true, hInline, hCont]
              simp [hin, statsAdd, segStats_optCons, Prod.mk.injEq, Stats.mk.injEq]
              omega
            · by_cases hbl : pyLower nm2 ∈ BLOCK_TAGS
              · refine ⟨segs, re.toList ++ nodes, fun stats => ?_, ?_⟩
                · rw [parseContent]
                  simp only [hin, hbl, if_pos, if_neg, reduceIte, ite_true, ite_false,
                    hElem, hCont]
                  simp [hin, hbl, hElem, statsAdd, deltaForest_optCons, Prod.mk.injEq,
                    Stats.mk.injEq]
                  omega
                · rw [wfForest_optCons]
                  simp [hWfElem, hWfNodes]
              · refine ⟨segs, nodes, fun stats => ?_, hWfNodes⟩
                rw [parseContent]
                simp [hin, hbl, hCont stats]
          · -- tableChar
            by_cases htr : nm2 = "tr"
            · obtain ⟨rcells, hRCells, hWfRCells⟩ := hRCch
              refine ⟨.mk NodeType.tableRow none [] at2 none rcells none false none false
                  :: rows, fun stats => ?_, ?_⟩
              · rw [parseTable]
                simp only [htr, reduceIte, ite_true, if_pos rfl, hRCells, hRows]
                simp [htr, deltaRows, statsAdd, Prod.mk.injEq, Stats.mk.injEq]
                omega
              · simp [wfRows, hWfRCells, hWfRows]
            · refine ⟨rows, fun stats => ?_, hWfRows⟩
              rw [parseTable]
              simp [htr, hRows stats]
          · -- cellsChar
            by_cases htd : nm2 = "td" ∨ nm2 = "th"
            · obtain ⟨csegs, cnodes, hCcont, hWfCnodes⟩ := hCch nm2 at2
              refine ⟨.mk (if nm2 = "th" then NodeType.tableHeader else NodeType.tableCell)
                  none csegs at2 (domGetAttr at2 "style") cnodes none false none false
                  :: cells, fun stats => ?_, ?_⟩
              · rw [parseRowCells]
                simp only [htd, if_pos, reduceIte, ite_true, hCcont, hCells]
                rcases htd with h | h <;>
                · simp [h, deltaCells, statsAdd]
                  omega
              · rcases htd with h | h <;>
                  simp [h, wfCells, hWfCnodes, hWfCells]
            · refine ⟨cells, fun stats => ?_, hWfCells⟩
              rw [parseRowCells]
              simp [htd, hCells stats]
          · -- listChar
            by_cases hli : nm2 = "li"
            · subst hli
              refine ⟨re.toList ++ items, fun stats => ?_, ?_⟩
              · rw [parseList]
                simp only [reduceIte, ite_true, if_pos rfl, hElem, hItems]
                simp [hElem, deltaForest_optCons, statsAdd, Prod.mk.injEq, Stats.mk.injEq]
                omega
              · rw [wfForest_optCons]
                simp [hWfElem, hWfItems]
            · refine ⟨items, fun stats => ?_, hWfItems⟩
              rw [parseList]
              simp [hli, hItems stats]

theorem elemChar_all (e : HtmlNode) : elemChar e :=
  (parseChar (sizeOf e + 1)).1 e (Nat.lt_succ_self _)

/-- The main `parse_html` loop: the produced node list is independent of the
accumulators, the final counters grow by the produced forest's contribution,
and the forest is parser-shaped. -/
theorem parseTopNodes_char (cs : List HtmlNode) :
    ∃ ns : List ParsedNode,
      (∀ nodes sections footnotes stats,
        (parseTopNodes cs nodes sections footnotes stats).1 = nodes ++ ns ∧
        (parseTopNodes cs nodes sections footnotes stats).2.2.2 =
          statsAdd stats (deltaForest ns)) ∧
      wfForest ns = true := by
  induction cs with
  | nil =>
    exact ⟨[], fun nodes sections footnotes stats =>
      ⟨by simp [parseTopNodes], by simp [parseTopNodes, deltaForest, statsAdd_zero_right]⟩, rfl⟩
  | cons c rest ih =>
    obtain ⟨ns, hns, hwf⟩ := ih
    cases c with
    | text s =>
      exact ⟨ns, fun nodes sections footnotes stats => by
        rw [parseTopNodes]
        exact hns nodes sections footnotes stats, hwf⟩
    | element nm attrs ch =>
      obtain ⟨re, hE, hwfE⟩ := elemChar_all (.element nm attrs ch)
      cases re with
      | none =>
        refine ⟨ns, fun nodes sections footnotes stats => ?_, hwf⟩
        rw [parseTopNodes]
        simp only [hE stats, deltaOpt, statsAdd_zero_right]
        exact hns nodes sections footnotes stats
      | some parsed =>
        refine ⟨parsed :: ns, fun nodes sections footnotes stats => ?_, ?_⟩
        · rw [parseTopNodes]
          simp only [hE stats, deltaOpt]
          obtain ⟨h1, h2⟩ := hns (nodes ++ [parsed])
            (match parsed.node_id with
             | some i => if i ≠ "" then dictInsert i parsed sections else sections
             | none => sections)
            (if parsed.is_footnote then
              match parsed.footnote_id with
              | some fid => if fid ≠ "" then dictInsert fid parsed footnotes else footnotes
              | none => footnotes
             else footnotes)
            (statsAdd stats (deltaNode parsed))
          refine ⟨?_, ?_⟩
          · rw [h1, List.append_assoc]
            rfl
          · rw [h2, statsAdd_assoc, deltaForest]
        · simp only [wfOpt] at hwfE
          simp [wfForest, hwfE, hwf]

/-- The stats `parse_html` stores are exactly the accumulated (`deltaForest`)
counters of the final node list, and that list is parser-shaped. -/
theorem parseHtml_stats (soup : List HtmlNode) (fn : Option String) :
    (parseHtml soup fn).stats = deltaForest (parseHtml soup fn).nodes ∧
    wfForest (parseHtml soup fn).nodes = true := by
  rw [parseHtml]
  obtain ⟨ns, hns, hwf⟩ := parseTopNodes_char
    (match findBody soup with
     | some (.element _ _ cs) => cs
     | _ => soup)
  obtain ⟨h1, h2⟩ := hns [] [] [] {}
  simp only [h1, h2, List.nil_append, statsAdd_zero_left]
  simp [hwf]

def soupC4 : List HtmlNode :=
  [.element "body" []
    [.element "table" [] [.element "tr" [] [.element "td" [] [.text "x"]]]]]

/-- C4 counterexample: for a document holding one table with one row and one
cell, the stored stats count one node (only the table passes through
`_parse_element`), while a fresh recomputation over the parsed tree counts
three (table, row, cell) — the stored and recomputed stats differ. -/
theorem C4_counterexample :
    (parseHtml soupC4 none).stats.total_nodes = 1 ∧
    (recomputeStats (parseHtml soupC4 none)).total_nodes = 3 ∧
    (parseHtml soupC4 none).stats ≠ recomputeStats (parseHtml soupC4 none) := by decide

/-- C4 (amended): recomputing the stats from the final parsed tree agrees
with the stats stored at parse time on every counter except the total node
count, which the stored stats undercount by exactly the table parser's row
and cell nodes (`missForest`); in particular the two agree entirely on any
document whose parsed tree has no table rows or cells. -/
theorem C4_stats_consistency (soup : List HtmlNode) (fn : Option String) :
    recomputeStats (parseHtml soup fn) =
      { (parseHtml soup fn).stats with
        total_nodes :=
          (parseHtml soup fn).stats.total_nodes + missForest (parseHtml soup fn).nodes } := by
  obtain ⟨hstats, hwf⟩ := parseHtml_stats soup fn
  have hfresh := (fresh_eq_delta_miss (sizeOf (parseHtml soup fn).nodes + 1)).2
    (parseHtml soup fn).nodes (Nat.lt_succ_self _) |>.2.2 hwf
  rw [recomputeStats, hfresh, hstats]
